import Mathlib

/-!
Shallow embedding of the tech-trend-analysis repository's core query layer
(`backend/app/services/topic_service.py`, `backend/app/api/topics.py`) and of the
offline trend aggregator (`data_processing/compute_trends.py`).

Modelling conventions:
* pandas DataFrames become lists of typed row records; the `topic_0 .. topic_{K-1}`
  probability columns of `doc_topics.parquet` become a `List ℚ` per row, indexed
  positionally (column `topic_i` is position `i`).
* floats become exact rationals `ℚ`; Python `int(...)` on a float is `pyTrunc`
  (truncation toward zero) and Python `round(...)` is `pyRound` (half-to-even).
* Python dicts used as accumulators become insertion-ordered association lists.
* `np.argmax` over a probability row is `argmaxIdx` (first index of the maximum).
* pandas `nlargest(n, col)` (`keep='first'`) is a stable descending sort by the
  key followed by `take n` (`nlargestBy`).
* the lazily loaded artifacts (`doc_topics`, `df_main`, `df_papers`, trends) are
  `Option`-typed parameters; `none` models a missing/unloadable artifact.
* article identifiers are modelled as strings throughout, so the source's
  `astype(str)` retry of the same `isin` match coincides with the first match
  and is dropped.
-/

namespace TTA

/-- Python `int()` applied to a numeric value: truncation toward zero. -/
def pyTrunc (q : ℚ) : ℤ := if q < 0 then -⌊-q⌋ else ⌊q⌋

/-- Python `round()` on an exact value: round half to even. -/
def pyRound (q : ℚ) : ℤ :=
  if q - ⌊q⌋ < 1/2 then ⌊q⌋
  else if 1/2 < q - ⌊q⌋ then ⌊q⌋ + 1
  else if ⌊q⌋ % 2 = 0 then ⌊q⌋ else ⌊q⌋ + 1

/-- Python `str.lower()` (over the characters of the string). -/
def lowerStr (s : String) : String := ⟨s.data.map Char.toLower⟩

/-- Python `str.strip()`: drop leading and trailing whitespace. -/
def stripStr (s : String) : String :=
  ⟨((s.data.dropWhile Char.isWhitespace).reverse.dropWhile Char.isWhitespace).reverse⟩

/-- Lookup in an insertion-ordered association list (Python `dict` read). -/
def alookup {β : Type} (k : String) : List (String × β) → Option β
  | [] => none
  | p :: rest => if p.1 = k then some p.2 else alookup k rest

/-- In-place value update in an association list (Python `dict` write to an
existing key keeps the key's position). -/
def aupdate {β : Type} (k : String) (v : β) : List (String × β) → List (String × β)
  | [] => []
  | p :: rest => if p.1 = k then (p.1, v) :: rest else p :: aupdate k v rest

/-- Deduplication keeping first occurrences, with an accumulator of seen keys. -/
def dedupFirstAux {α : Type} [DecidableEq α] (seen : List α) : List α → List α
  | [] => []
  | x :: xs => if x ∈ seen then dedupFirstAux seen xs else x :: dedupFirstAux (x :: seen) xs

/-- Deduplication keeping first occurrences (pandas `unique`, dict key order). -/
def dedupFirst {α : Type} [DecidableEq α] (l : List α) : List α := dedupFirstAux [] l

/-- Ascending sort of integers (Python `sorted`, pandas `groupby` key order). -/
def sortAsc (l : List ℤ) : List ℤ := List.insertionSort (· ≤ ·) l

/-- pandas `nlargest(n, key)` with `keep='first'`: stable descending sort by the
key, then the first `n` entries. -/
def nlargestBy {α : Type} (n : ℕ) (key : α → ℚ) (l : List α) : List α :=
  (List.insertionSort (fun a b => key b ≤ key a) l).take n

/-- `np.argmax` over a row: first index attaining the maximum (ties broken by
lowest index); `0` on an empty row. -/
def argmaxIdx : List ℚ → ℕ
  | [] => 0
  | x :: xs =>
    let r := argmaxIdx xs
    if xs.getD r x ≤ x then 0 else r + 1

/-! ## Data model -/

/-- One row of the topic-term table `topic_terms.csv`: `{topic_id, term, weight}`. -/
structure TermRow where
  topic_id : ℤ
  term : String
  weight : ℚ
deriving DecidableEq

/-- One row of the document-topic matrix `doc_topics.parquet`: a document
identifier, the publication year, and the dense `K`-wide topic-probability row. -/
structure DocRow where
  articleId : String
  year : ℤ
  probs : List ℚ
deriving DecidableEq

/-- The in-memory document-topic matrix: the number `K` of `topic_i` columns,
whether an `article_id` column is present, and the rows. -/
structure DocTopics where
  K : ℕ
  hasArticleId : Bool
  docs : List DocRow
deriving DecidableEq

/-- One row of `yearly_trends.parquet`: a year and the `K` per-topic means. -/
structure TrendRow where
  year : ℤ
  vals : List ℚ
deriving DecidableEq

/-- The yearly-trends table: number of `topic_i` columns and the rows. -/
structure Trends where
  K : ℕ
  rows : List TrendRow
deriving DecidableEq

/-- The label cache `_labels`: a partial map from topic id to label string. -/
def Labels : Type := ℤ → Option String

/-- The fresh (never-loaded) label cache of a new `TopicService` instance. -/
def emptyLabels : Labels := fun _ => none

/-- The hard-coded `_custom_labels` map for the first 15 topics
(`TopicService.__init__`). -/
def customLabels : Labels := fun k =>
  if k = 0 then some "人工智能基础 / AI Fundamentals"
  else if k = 1 then some "计算机视觉 / Computer Vision"
  else if k = 2 then some "自然语言处理 / Natural Language Processing"
  else if k = 3 then some "语音与多模态 / Speech & Multimodal"
  else if k = 4 then some "机器学习算法与优化 / ML Algorithms & Optimization"
  else if k = 5 then some "深度学习架构 / Deep Learning Architectures"
  else if k = 6 then some "数据挖掘与知识图谱 / Data Mining & Knowledge Graph"
  else if k = 7 then some "推荐系统 / Recommender Systems"
  else if k = 8 then some "强化学习与规划 / Reinforcement Learning & Planning"
  else if k = 9 then some "医疗智能 / Healthcare AI"
  else if k = 10 then some "金融科技智能 / FinTech AI"
  else if k = 11 then some "智能制造与机器人 / Robotics & Smart Manufacturing"
  else if k = 12 then some "网络与安全 / Networking & Security"
  else if k = 13 then some "大模型与AIGC / Foundation Models & AIGC"
  else if k = 14 then some "云计算与大数据 / Cloud & Big Data"
  else none

/-- `TopicService._load_labels`: the JSON label file is read into the cache and
then the custom labels overwrite the entries for topics 0..14, so a lookup hits
the custom map first and the JSON map otherwise. -/
def loadLabels (json : Labels) : Labels := fun k =>
  match customLabels k with
  | some v => some v
  | none => json k

/-! ## Offline aggregator (`compute_trends.py`) -/

/-- `compute_yearly_trends`: group the document-topic matrix rows by year and
take the column-wise arithmetic mean; one output row per year, years ascending
(pandas `groupby` sorts group keys). -/
def yearlyTrends (K : ℕ) (docs : List DocRow) : List TrendRow :=
  (sortAsc (dedupFirst (docs.map (fun d => d.year)))).map (fun y =>
    let g := docs.filter (fun d => d.year = y)
    { year := y
      vals := (List.range K).map (fun t =>
        (g.map (fun d => d.probs.getD t 0)).sum / (g.length : ℚ)) })

/-! ## Topic listing (`TopicService.get_topics` / `get_topic`) -/

/-- A topic as returned by `get_topics`: 0-based id, label, top-10 terms. -/
structure TopicOut where
  id : ℤ
  label : String
  top_terms : List (String × ℚ)
deriving DecidableEq

/-- The rows of the topic-term table belonging to one topic id
(`groupby('topic_id')` group, original row order). -/
def topicGroup (tt : List TermRow) (tid : ℤ) : List TermRow :=
  tt.filter (fun r => r.topic_id = tid)

/-- The distinct topic ids of the topic-term table in ascending order
(pandas `groupby` key order). -/
def topicIds (tt : List TermRow) : List ℤ :=
  sortAsc (dedupFirst (tt.map (fun r => r.topic_id)))

/-- The default label: the top-3 terms joined with `' / '`. -/
def defaultLabel (top_terms : List (String × ℚ)) : String :=
  String.intercalate " / " ((top_terms.take 3).map (fun p => p.1))

/-- `TopicService.get_topics`: for each topic id (ascending), the top-10 terms
by weight and the label (cache hit, else the default top-3 join); only the
first 15 topics are kept. -/
def getTopics (tt : List TermRow) (labels : Labels) : List TopicOut :=
  ((topicIds tt).map (fun tid =>
    let top_terms := (nlargestBy 10 (fun r => r.weight) (topicGroup tt tid)).map
      (fun r => (r.term, r.weight))
    { id := tid
      label := (labels tid).getD (defaultLabel top_terms)
      top_terms := top_terms })).take 15

/-- `TopicService.get_topic`: the first listed topic with the requested
(0-based) id; `none` models the raised `KeyError` (NotFound). -/
def getTopic (tt : List TermRow) (labels : Labels) (tid : ℤ) : Option TopicOut :=
  (getTopics tt labels).find? (fun t => t.id = tid)

/-- `list_topics` route: externalizes each listed topic with its id shifted to
1-based. -/
def apiListTopics (tt : List TermRow) (labels : Labels) : List TopicOut :=
  (getTopics tt labels).map (fun t => { t with id := t.id + 1 })

/-- `topic_detail` route: passes the path id to `get_topic` unchanged and echoes
the topic's 0-based id back; `none` models the 404 on `KeyError`. -/
def apiTopicDetail (tt : List TermRow) (labels : Labels) (tid : ℤ) : Option TopicOut :=
  getTopic tt labels tid

/-! ## Trends query (`TopicService.get_trends`) -/

/-- One per-topic series of the `get_trends` payload. -/
structure TrendTopicOut where
  id : ℕ
  label : String
  series : List ℚ
deriving DecidableEq

/-- The `get_trends` payload: the year axis and the per-topic series. -/
structure TrendsOut where
  years : List ℤ
  topics : List TrendTopicOut
deriving DecidableEq

/-- `TopicService.get_trends`: reads the label cache as-is (it never calls
`_load_labels`), keeps the first 15 topic columns, and emits 1-based ids with
the fallback label `Topic i+1` for cache misses. -/
def getTrends (tr : Trends) (labels : Labels) : TrendsOut :=
  { years := tr.rows.map (fun r => r.year)
    topics := (List.range (min tr.K 15)).map (fun i =>
      { id := i + 1
        label := (labels (i : ℤ)).getD ("Topic " ++ toString (i + 1))
        series := tr.rows.map (fun r => r.vals.getD i 0) }) }

/-! ## Document counts (`TopicService.get_year_all_topics_doc_counts`) -/

/-- One entry of a doc-count payload. -/
structure CountOut where
  id : ℕ
  label : String
  docCount : ℕ
deriving DecidableEq

/-- `TopicService.get_year_all_topics_doc_counts`: restrict to the year's rows,
truncate the topic columns to the first 15 **before** computing each row's
arg-max, and count each row under its arg-max topic. Empty when the matrix is
missing or the year has no rows. -/
def yearAllTopicsDocCounts (dt : Option DocTopics) (labels : Labels) (year : ℤ) :
    List CountOut :=
  match dt with
  | none => []
  | some m =>
    let year_docs := m.docs.filter (fun d => d.year = year)
    if year_docs = [] then []
    else
      (List.range (min m.K 15)).map (fun t =>
        { id := t + 1
          label := (labels (t : ℤ)).getD ("Topic " ++ toString (t + 1))
          docCount := year_docs.countP (fun d => argmaxIdx (d.probs.take 15) = t) })

/-- The number of documents of a year whose dominant topic — arg-max over the
full `K`-wide probability row — is `topic_idx` (the count used by
`get_topic_year_detail` and the keyword queries, which do not truncate the
columns). -/
def dominantCountYear (m : DocTopics) (topic_idx : ℤ) (year : ℤ) : ℕ :=
  (m.docs.filter (fun d => d.year = year)).countP
    (fun d => (argmaxIdx d.probs : ℤ) = topic_idx)

/-! ## Topic-year detail (`TopicService.get_topic_year_detail`) -/

/-- One term of the topic-year-detail payload. -/
structure TermOut where
  term : String
  weight : ℚ
  percent : ℚ
deriving DecidableEq

/-- The topic-year-detail payload. -/
structure DetailOut where
  id : ℕ
  year : ℤ
  label : String
  docCount : ℤ
  terms : List TermOut
deriving DecidableEq

/-- The primary-path term list: each of the top-30 terms gets
`weight * topic_factor * variation_i` with
`variation_i = 1 + (rand_i - 0.5) * 0.3 * (1 - i/30)`, and percents are filled
in (normalized to 100) only when the total adjusted weight is positive. -/
def primaryTerms (gs : List TermRow) (topic_factor : ℚ) (rand : ℕ → ℚ) : List TermOut :=
  let adjusted := ((List.range gs.length).zip gs).map (fun p =>
    (p.2.term, p.2.weight * topic_factor *
      (1 + (rand p.1 - 1/2) * (3/10) * (1 - (p.1 : ℚ)/30))))
  let total := (adjusted.map (fun q => q.2)).sum
  adjusted.map (fun q =>
    { term := q.1, weight := q.2
      percent := if 0 < total then q.2 / total * 100 else 0 })

/-- The fallback term list: the global top-30 terms of the topic, percent =
straight weight share of their sum (`or 1.0` when the sum is falsy zero). -/
def fallbackTerms (tt : List TermRow) (topic_idx : ℤ) : List TermOut :=
  let group := topicGroup tt topic_idx
  if group = [] then []
  else
    let gs := nlargestBy 30 (fun r => r.weight) group
    let s : ℚ := (gs.map (fun r => r.weight)).sum
    let total_weight : ℚ := if s = 0 then 1 else s
    gs.map (fun r => { term := r.term, weight := r.weight
                       percent := r.weight / total_weight * 100 })

/-- The `except` fallback of `get_topic_year_detail`: doc count from the yearly
trend value (`int(round(max(val, 0)))`), terms from the global topic-term
table. -/
def fallbackDetail (tt : List TermRow) (tr : Option Trends) (labels : Labels)
    (topic1 : ℕ) (year : ℤ) : DetailOut :=
  let topic_idx : ℤ := (topic1 : ℤ) - 1
  let doc_count : ℤ :=
    match tr with
    | none => 0
    | some t =>
      if 0 ≤ topic_idx ∧ topic_idx < (t.K : ℤ) then
        match (t.rows.filter (fun r => r.year = year)).head? with
        | some r => pyRound (max (r.vals.getD topic_idx.toNat 0) 0)
        | none => 0
      else 0
  { id := topic1, year := year
    label := (labels topic_idx).getD ("Topic " ++ toString topic1)
    docCount := doc_count
    terms := fallbackTerms tt topic_idx }

/-- `TopicService.get_topic_year_detail`. The dominant-document count uses the
arg-max over the full `K`-wide row (no truncation to 15). A matrix with no
topic columns (`K = 0`) raises in the primary path and lands in the fallback;
the dedicated zero-document and empty-group early returns are kept. `rand` is
the `random.random()` stream seeded by `(year, topic)`. -/
def getTopicYearDetail (dt : Option DocTopics) (tt : List TermRow) (tr : Option Trends)
    (labels : Labels) (rand : ℕ → ℚ) (topic1 : ℕ) (year : ℤ) : DetailOut :=
  let topic_idx : ℤ := (topic1 : ℤ) - 1
  match dt with
  | none =>
    { id := topic1, year := year, label := "Topic " ++ toString topic1
      docCount := 0, terms := [] }
  | some m =>
    let year_docs := m.docs.filter (fun d => d.year = year)
    if year_docs = [] then
      { id := topic1, year := year
        label := (labels topic_idx).getD ("Topic " ++ toString topic1)
        docCount := 0, terms := [] }
    else
      if m.K = 0 then fallbackDetail tt tr labels topic1 year
      else
        let doc_count := year_docs.countP (fun d => (argmaxIdx d.probs : ℤ) = topic_idx)
        if doc_count = 0 then
          { id := topic1, year := year
            label := (labels topic_idx).getD ("Topic " ++ toString topic1)
            docCount := 0, terms := [] }
        else
          if 0 ≤ topic_idx ∧ topic_idx < (m.K : ℤ) then
            let dominant := year_docs.filter
              (fun d => (argmaxIdx d.probs : ℤ) = topic_idx)
            let avg_prob :=
              (dominant.map (fun d => d.probs.getD topic_idx.toNat 0)).sum
                / (doc_count : ℚ)
            let group := topicGroup tt topic_idx
            if group = [] then
              { id := topic1, year := year
                label := (labels topic_idx).getD ("Topic " ++ toString topic1)
                docCount := doc_count, terms := [] }
            else
              let gs := nlargestBy 30 (fun r => r.weight) group
              let year_factor : ℚ := 1 + (year - 2020) * (1/10)
              let topic_factor := avg_prob * year_factor
              { id := topic1, year := year
                label := (labels topic_idx).getD ("Topic " ++ toString topic1)
                docCount := doc_count
                terms := primaryTerms gs topic_factor rand }
          else fallbackDetail tt tr labels topic1 year

/-! ## Keyword queries (`TopicService.get_keywords_*`,
`_merge_case_insensitive_keywords`) -/

/-- One keyword entry `{term, count, weight}`. -/
structure KW where
  term : String
  count : ℤ
  weight : ℚ
deriving DecidableEq

/-- The per-term estimated count heuristic `int(weight * doc_count * 10)`. -/
def estCount (w : ℚ) (dc : ℕ) : ℤ := pyTrunc (w * (dc : ℚ) * 10)

/-- One step of the `all_keywords` dict accumulation: insert `{count: 0,
weight: 0.0}` on first sight, then add the estimated count and the weight. -/
def accumStep (dc : ℕ) (m : List (String × (ℤ × ℚ))) (r : TermRow) :
    List (String × (ℤ × ℚ)) :=
  match alookup r.term m with
  | none => m ++ [(r.term, (estCount r.weight dc, r.weight))]
  | some p => aupdate r.term (p.1 + estCount r.weight dc, p.2 + r.weight) m

/-- The state of one `keyword_map` bucket during the case-insensitive merge:
display term, running count and weight sums, and the recorded
`_original_count` (absent = 0). -/
structure MEntry where
  term : String
  count : ℤ
  weight : ℚ
  orig : ℤ
deriving DecidableEq

/-- One step of `_merge_case_insensitive_keywords`: skip empty terms; first
occurrence of a lowercase key stores the entry with no recorded original
count; later occurrences add count and weight and adopt the new casing when
the new count beats the recorded `_original_count` (which starts at 0 — the
first entry's count is never recorded). -/
def mergeStep (m : List (String × MEntry)) (kw : KW) : List (String × MEntry) :=
  if kw.term = "" then m
  else
    let key := lowerStr kw.term
    match alookup key m with
    | none => m ++ [(key, { term := kw.term, count := kw.count
                            weight := kw.weight, orig := 0 })]
    | some e =>
      let merged : MEntry :=
        if e.orig < kw.count then
          { term := kw.term, count := e.count + kw.count
            weight := e.weight + kw.weight, orig := kw.count }
        else
          { term := e.term, count := e.count + kw.count
            weight := e.weight + kw.weight, orig := e.orig }
      aupdate key merged m

/-- `TopicService._merge_case_insensitive_keywords`. -/
def mergeCaseInsensitive (kws : List KW) : List KW :=
  (kws.foldl mergeStep []).map (fun p =>
    { term := p.2.term, count := p.2.count, weight := p.2.weight })

/-- Final ranking shared by all four keyword queries: stable descending sort by
count, top 50. -/
def rankKeywords (kws : List KW) : List KW :=
  (List.insertionSort (fun a b : KW => b.count ≤ a.count) kws).take 50

/-- `TopicService.get_keywords_topic_year`: accumulate
`int(weight * doc_count * 10)` over the whole term group of the topic (the
group is re-sorted by weight with no size cap), merge case-insensitively, rank.
Empty when the matrix is missing, the year or the group is empty, the matrix
has no topic columns (the arg-max raises), or the dominant count is zero. -/
def getKeywordsTopicYear (dt : Option DocTopics) (tt : List TermRow)
    (topic1 : ℕ) (year : ℤ) : List KW :=
  match dt with
  | none => []
  | some m =>
    let topic_idx : ℤ := (topic1 : ℤ) - 1
    let year_docs := m.docs.filter (fun d => d.year = year)
    if year_docs = [] then []
    else
      let group := topicGroup tt topic_idx
      if group = [] then []
      else if m.K = 0 then []
      else
        let doc_count := dominantCountYear m topic_idx year
        if doc_count = 0 then []
        else
          let gs := nlargestBy group.length (fun r => r.weight) group
          let acc := gs.foldl (accumStep doc_count) []
          let kws := acc.map (fun p =>
            { term := p.1, count := p.2.1, weight := p.2.2 : KW })
          rankKeywords (mergeCaseInsensitive kws)

/-- The distinct years of the matrix in ascending order
(`sorted(...unique().tolist())` in `get_topic_all_years_data`). -/
def yearsOf (m : DocTopics) : List ℤ :=
  sortAsc (dedupFirst (m.docs.map (fun d => d.year)))

/-- One step of the `all_keywords` accumulation of `get_topic_all_years_data`:
first sight of a term stores `{weight, count: 0}`, then the estimated count is
added; the weight is not accumulated on later sights. -/
def aaStep (dc : ℕ) (acc : List (String × (ℚ × ℤ))) (r : TermRow) :
    List (String × (ℚ × ℤ)) :=
  match alookup r.term acc with
  | none => acc ++ [(r.term, (r.weight, estCount r.weight dc))]
  | some p => aupdate r.term (p.1, p.2 + estCount r.weight dc) acc

/-- One year of the `get_topic_all_years_data` keyword loop: skip years with no
documents, no dominant documents, or an empty term group; otherwise fold the
topic's top-30 terms into the accumulator with that year's dominant count. -/
def yearStep (m : DocTopics) (tt : List TermRow) (topic_idx : ℤ)
    (acc : List (String × (ℚ × ℤ))) (y : ℤ) : List (String × (ℚ × ℤ)) :=
  if m.docs.filter (fun d => d.year = y) = [] then acc
  else if dominantCountYear m topic_idx y = 0 then acc
  else if topicGroup tt topic_idx = [] then acc
  else (nlargestBy 30 (fun r => r.weight) (topicGroup tt topic_idx)).foldl
    (aaStep (dominantCountYear m topic_idx y)) acc

/-- The `all_keywords` accumulator of `get_topic_all_years_data` after the
year loop. -/
def accumAllYears (m : DocTopics) (tt : List TermRow) (topic_idx : ℤ) :
    List (String × (ℚ × ℤ)) :=
  (yearsOf m).foldl (yearStep m tt topic_idx) []

/-- A term's contribution for one year in `get_topic_all_years_data`:
`int(weight * doc_count * 10)` for a contributing year, otherwise 0. -/
def yearContrib (m : DocTopics) (topic_idx : ℤ) (w : ℚ) (y : ℤ) : ℤ :=
  if m.docs.filter (fun d => d.year = y) = [] then 0
  else if dominantCountYear m topic_idx y = 0 then 0
  else estCount w (dominantCountYear m topic_idx y)

/-- The `keywords` field of `get_topic_all_years_data`: the accumulated entries
sorted descending by count (stable), top 20. A matrix with no topic columns
raises inside the year loop and lands in the `except` handler, which returns
empty keywords. -/
def getTopicAllYearsKeywords (dt : Option DocTopics) (tt : List TermRow)
    (topic1 : ℕ) : List KW :=
  match dt with
  | none => []
  | some m =>
    if m.K = 0 then []
    else
      let topic_idx : ℤ := (topic1 : ℤ) - 1
      ((List.insertionSort (fun a b : KW => b.count ≤ a.count)
        ((accumAllYears m tt topic_idx).map
          (fun p => ({ term := p.1, count := p.2.2, weight := p.2.1 } : KW)))).take 20)

/-- The all-years dominant-document count of a topic index with the columns
truncated to the first 15 before the arg-max, as computed by the two
all-topics keyword queries. -/
def dominantCount15 (m : DocTopics) (t : ℕ) : ℕ :=
  m.docs.countP (fun d => argmaxIdx (d.probs.take 15) = t)

/-- The year-scoped dominant-document count with 15-truncated columns
(`get_keywords_all_topics_year`). -/
def dominantCount15Year (m : DocTopics) (t : ℕ) (year : ℤ) : ℕ :=
  (m.docs.filter (fun d => d.year = year)).countP
    (fun d => argmaxIdx (d.probs.take 15) = t)

/-- One topic of the `for topic_idx in range(15)` accumulation loop shared by
the two all-topics keyword queries: skip topics with an empty term group
(absent from `topic_terms_by_id`) or zero dominant-document count; otherwise
fold the topic's top-50 terms into the accumulator with that topic's count. -/
def topicStep (tt : List TermRow) (dcOf : ℕ → ℕ)
    (acc : List (String × (ℤ × ℚ))) (t : ℕ) : List (String × (ℤ × ℚ)) :=
  if topicGroup tt (t : ℤ) = [] then acc
  else if dcOf t = 0 then acc
  else (nlargestBy 50 (fun r => r.weight) (topicGroup tt (t : ℤ))).foldl
    (accumStep (dcOf t)) acc

/-- `TopicService.get_keywords_all_topics_all_years`: per-topic dominant counts
over all years with 15-truncated columns, top-50 terms per topic accumulated
into one dict, case-insensitive merge, rank. A matrix with no topic columns
and at least one row raises at the arg-max and lands in the `except` handler
(`[]`); with no rows at all every count is 0 and the result is `[]` along the
normal path as well. -/
def getKeywordsAllTopicsAllYears (dt : Option DocTopics) (tt : List TermRow) :
    List KW :=
  match dt with
  | none => []
  | some m =>
    if m.K = 0 then []
    else
      let acc := (List.range 15).foldl (topicStep tt (dominantCount15 m)) []
      rankKeywords (mergeCaseInsensitive
        (acc.map (fun p => ({ term := p.1, count := p.2.1, weight := p.2.2 } : KW))))

/-- `TopicService.get_keywords_all_topics_year`: as above but restricted to one
year's documents (empty year yields `[]` before the arg-max can raise). -/
def getKeywordsAllTopicsYear (dt : Option DocTopics) (tt : List TermRow)
    (year : ℤ) : List KW :=
  match dt with
  | none => []
  | some m =>
    if m.docs.filter (fun d => d.year = year) = [] then []
    else if m.K = 0 then []
    else
      let acc := (List.range 15).foldl
        (topicStep tt (fun t => dominantCount15Year m t year)) []
      rankKeywords (mergeCaseInsensitive
        (acc.map (fun p => ({ term := p.1, count := p.2.1, weight := p.2.2 } : KW))))

/-- One year of the `get_keywords_topic_all_years` loop: skip years with no
documents or no dominant documents (full-width arg-max); otherwise fold the
whole term group (re-sorted by weight, no size cap) into the accumulator. -/
def tyStep (m : DocTopics) (tt : List TermRow) (topic_idx : ℤ)
    (acc : List (String × (ℤ × ℚ))) (y : ℤ) : List (String × (ℤ × ℚ)) :=
  if m.docs.filter (fun d => d.year = y) = [] then acc
  else if dominantCountYear m topic_idx y = 0 then acc
  else (nlargestBy (topicGroup tt topic_idx).length (fun r => r.weight)
    (topicGroup tt topic_idx)).foldl
    (accumStep (dominantCountYear m topic_idx y)) acc

/-- A term's per-year weight contribution in `get_keywords_topic_all_years`
(the weight is re-added for every contributing year). -/
def wContrib (m : DocTopics) (topic_idx : ℤ) (w : ℚ) (y : ℤ) : ℚ :=
  if m.docs.filter (fun d => d.year = y) = [] then 0
  else if dominantCountYear m topic_idx y = 0 then 0
  else w

/-- `TopicService.get_keywords_topic_all_years`: empty when the matrix is
missing, the group is empty, the matrix has no topic columns (the arg-max
raises), or the topic dominates no document at all; otherwise the per-year
estimated counts are accumulated over all years, merged and ranked. -/
def getKeywordsTopicAllYears (dt : Option DocTopics) (tt : List TermRow)
    (topic1 : ℕ) : List KW :=
  match dt with
  | none => []
  | some m =>
    let topic_idx : ℤ := (topic1 : ℤ) - 1
    if topicGroup tt topic_idx = [] then []
    else if m.K = 0 then []
    else
      if m.docs.countP (fun d => (argmaxIdx d.probs : ℤ) = topic_idx) = 0 then []
      else
        let acc := (yearsOf m).foldl (tyStep m tt topic_idx) []
        rankKeywords (mergeCaseInsensitive
          (acc.map (fun p => ({ term := p.1, count := p.2.1, weight := p.2.2 } : KW))))

/-! ## Representative authors (`TopicService.get_topic_representative_authors`) -/

/-- One row of `df_main.csv`: the article identifier and the parsed author-name
list (`none` models a missing/NaN/unparseable `Authors` cell). -/
structure MainRow where
  articleId : String
  authors : Option (List String)
deriving DecidableEq

/-- The author names extracted from one main-table row: each name stripped,
empty names dropped. -/
def cleanAuthors (r : MainRow) : List String :=
  match r.authors with
  | none => []
  | some l => (l.map stripStr).filter (fun s => s ≠ "")

/-- The 100 documents with the highest raw probability for the topic
(`nlargest(100, topic_col)`, not dominant-topic filtered). -/
def top100Docs (m : DocTopics) (tidx : ℕ) : List DocRow :=
  nlargestBy 100 (fun d => d.probs.getD tidx 0) m.docs

/-- The main-table rows matched to the top-100 documents: first through the
paper-table bridge (paper ids restricted to the top-100 ids), then, if that
yields nothing, by direct id match. -/
def selectedMatched (m : DocTopics) (main : List MainRow)
    (papers : Option (List String)) (tidx : ℕ) : List MainRow :=
  let ids := (top100Docs m tidx).map (fun d => d.articleId)
  let viaPapers : List MainRow :=
    match papers with
    | some ps =>
      let pm := ps.filter (fun a => a ∈ ids)
      if pm = [] then []
      else main.filter (fun r => r.articleId ∈ pm)
    | none => []
  if viaPapers = [] then main.filter (fun r => r.articleId ∈ ids) else viaPapers

/-- All author names collected over the matched rows, in row order. -/
def collectedAuthors (m : DocTopics) (main : List MainRow)
    (papers : Option (List String)) (tidx : ℕ) : List String :=
  ((selectedMatched m main papers tidx).map cleanAuthors).flatten

/-- `collections.Counter(l).most_common(n)` keys: distinct elements in
first-occurrence order, stably sorted by descending multiplicity, first `n`. -/
def mostCommon (n : ℕ) (l : List String) : List String :=
  ((List.insertionSort (fun a b : String × ℕ => b.2 ≤ a.2)
    ((dedupFirst l).map (fun s => (s, l.count s)))).take n).map (fun p => p.1)

/-- `TopicService.get_topic_representative_authors`: empty when the matrix or
the main table is missing, the topic column or the `article_id` column is
absent, no row matches, or no author name survives; otherwise the `top_n` most
frequent names over the matched rows. Every failure is caught — the function
never raises. -/
def getTopicRepresentativeAuthors (dt : Option DocTopics)
    (dfMain : Option (List MainRow)) (dfPapers : Option (List String))
    (topic_id : ℤ) (top_n : ℕ) : List String :=
  match dt, dfMain with
  | some m, some main =>
    if 0 ≤ topic_id ∧ topic_id < (m.K : ℤ) then
      if m.hasArticleId then
        let matched := selectedMatched m main dfPapers topic_id.toNat
        if matched = [] then []
        else
          let allAuthors := collectedAuthors m main dfPapers topic_id.toNat
          if allAuthors = [] then []
          else mostCommon top_n allAuthors
      else []
    else []
  | _, _ => []

/-! ## Concrete instances used by counterexamples and witnesses -/

/-- A matrix with 16 topic columns whose single 2020 document has its full-row
arg-max at topic index 15. -/
def exDT1 : DocTopics :=
  ⟨16, false, [⟨"d1", 2020, [0, 0, 0, 0, 0, 0, 0, 0, 0, 0, 0, 0, 0, 0, 0, 1]⟩]⟩

/-- A one-column matrix with a single document in year 2010. -/
def exDT2 : DocTopics := ⟨1, false, [⟨"d1", 2010, [1]⟩]⟩

/-- A one-term topic-term table for topic 0. -/
def exTT2 : List TermRow := [⟨0, "ai", 1/10⟩]

/-- A one-column matrix with a single document in year 2020. -/
def exDT3 : DocTopics := ⟨1, false, [⟨"d1", 2020, [1]⟩]⟩

/-- A topic-term table whose single term has weight 0.19. -/
def exTT3 : List TermRow := [⟨0, "ai", 19/100⟩]

/-- A two-document, one-topic matrix over two years. -/
def exDocs5 : List DocRow := [⟨"a", 2020, [3/20]⟩, ⟨"b", 2019, [1/20]⟩]

/-- The topic-term table of the spec's labelling example, under topic id 0. -/
def exTT7 : List TermRow := [⟨0, "ai", 1/10⟩, ⟨0, "model", 2/25⟩, ⟨0, "data", 1/20⟩]

/-- The topic-term table of the spec's labelling example, under topic id 15. -/
def exTT7b : List TermRow := [⟨15, "ai", 1/10⟩, ⟨15, "model", 2/25⟩, ⟨15, "data", 1/20⟩]

/-- A topic-term table with one row for each of the topic ids 0..14. -/
def exTT9 : List TermRow := (List.range 15).map (fun i => ⟨(i : ℤ), "term", 1⟩)

/-- A one-column yearly-trends table with a single 2020 row. -/
def exTrends : Trends := ⟨1, [⟨2020, [3/20]⟩]⟩

/-! ## General lemmas about the primitives -/

theorem argmaxIdx_lt_length (l : List ℚ) (hl : l ≠ []) : argmaxIdx l < l.length := by
  induction l with
  | nil => exact absurd rfl hl
  | cons x xs ih =>
    simp only [argmaxIdx]
    split
    · exact Nat.succ_pos _
    · rename_i hcond
      have hne : xs ≠ [] := by
        intro h0
        subst h0
        simp [argmaxIdx] at hcond
      simpa using Nat.succ_lt_succ (ih hne)

theorem sum_map_add_nat (r : List ℕ) (a b : ℕ → ℕ) :
    (r.map (fun t => a t + b t)).sum = (r.map a).sum + (r.map b).sum := by
  induction r with
  | nil => simp
  | cons x xs ih => simp [ih]; omega

theorem sum_indicator_ge (n k : ℕ) (h : n ≤ k) :
    ((List.range n).map (fun t => if k = t then 1 else 0)).sum = 0 := by
  induction n with
  | zero => simp
  | succ n ih =>
    rw [List.range_succ]
    have hk : k ≠ n := by omega
    simp [ih (by omega), hk]

theorem sum_indicator (n k : ℕ) (h : k < n) :
    ((List.range n).map (fun t => if k = t then 1 else 0)).sum = 1 := by
  induction n with
  | zero => omega
  | succ n ih =>
    rw [List.range_succ]
    by_cases hk : k = n
    · subst hk
      simp [sum_indicator_ge k k le_rfl]
    · have := ih (by omega)
      simp [this, hk]

theorem countP_partition {α : Type} (l : List α) (f : α → ℕ) (n : ℕ)
    (h : ∀ x ∈ l, f x < n) :
    ((List.range n).map (fun t => l.countP (fun x => f x = t))).sum = l.length := by
  induction l with
  | nil => simp
  | cons x xs ih =>
    have hxs : ∀ y ∈ xs, f y < n := fun y hy => h y (List.mem_cons_of_mem _ hy)
    have hx : f x < n := h x (List.mem_cons_self _ _)
    have hcons : ∀ t, (x :: xs).countP (fun z => f z = t)
        = xs.countP (fun z => f z = t) + (if f x = t then 1 else 0) := by
      intro t
      rw [List.countP_cons]
      simp
    calc ((List.range n).map (fun t => (x :: xs).countP (fun z => f z = t))).sum
        = ((List.range n).map (fun t =>
            xs.countP (fun z => f z = t) + (if f x = t then 1 else 0))).sum := by
          congr 1
          exact List.map_congr_left (fun t _ => hcons t)
      _ = ((List.range n).map (fun t => xs.countP (fun z => f z = t))).sum
            + ((List.range n).map (fun t => if f x = t then 1 else 0)).sum :=
          sum_map_add_nat _ _ _
      _ = xs.length + 1 := by rw [ih hxs, sum_indicator n (f x) hx]
      _ = (x :: xs).length := by simp

theorem mem_of_mem_nlargestBy {α : Type} {x : α} {n : ℕ} {key : α → ℚ} {l : List α}
    (h : x ∈ nlargestBy n key l) : x ∈ l :=
  (List.perm_insertionSort _ l).mem_iff.mp (List.mem_of_mem_take h)

theorem length_nlargestBy_le {α : Type} (n : ℕ) (key : α → ℚ) (l : List α) :
    (nlargestBy n key l).length ≤ n :=
  le_trans (List.length_take_le _ _) le_rfl

theorem pairwise_nlargestBy {α : Type} {R : α → α → Prop} (hs : Symmetric R)
    {n : ℕ} {key : α → ℚ} {l : List α} (h : l.Pairwise R) :
    (nlargestBy n key l).Pairwise R :=
  List.Pairwise.sublist (List.take_sublist _ _)
    (((List.perm_insertionSort (fun a b => key b ≤ key a) l).pairwise_iff
      (fun hab => hs hab)).mpr h)

theorem mem_dedupFirstAux {α : Type} [DecidableEq α] (x : α) :
    ∀ (l : List α) (seen : List α), x ∈ dedupFirstAux seen l ↔ x ∈ l ∧ x ∉ seen := by
  intro l
  induction l with
  | nil => intro seen; simp [dedupFirstAux]
  | cons y ys ih =>
    intro seen
    rw [dedupFirstAux]
    by_cases hy : y ∈ seen
    · rw [if_pos hy, ih]
      constructor
      · rintro ⟨h1, h2⟩
        exact ⟨List.mem_cons_of_mem _ h1, h2⟩
      · rintro ⟨h1, h2⟩
        rcases List.mem_cons.mp h1 with h | h
        · subst h; exact absurd hy h2
        · exact ⟨h, h2⟩
    · rw [if_neg hy]
      constructor
      · intro h
        rcases List.mem_cons.mp h with h | h
        · subst h; exact ⟨List.mem_cons_self _ _, hy⟩
        · rcases (ih (y :: seen)).mp h with ⟨h1, h2⟩
          refine ⟨List.mem_cons_of_mem _ h1, fun hx => h2 (List.mem_cons_of_mem _ hx)⟩
      · rintro ⟨h1, h2⟩
        rcases List.mem_cons.mp h1 with h | h
        · subst h; exact List.mem_cons_self _ _
        · by_cases hxy : x = y
          · subst hxy; exact List.mem_cons_self _ _
          · exact List.mem_cons_of_mem _
              ((ih (y :: seen)).mpr ⟨h, by simp [hxy, h2]⟩)

theorem mem_dedupFirst {α : Type} [DecidableEq α] (x : α) (l : List α) :
    x ∈ dedupFirst l ↔ x ∈ l := by
  rw [dedupFirst, mem_dedupFirstAux]
  simp

theorem nodup_dedupFirstAux {α : Type} [DecidableEq α] :
    ∀ (l : List α) (seen : List α), (dedupFirstAux seen l).Nodup := by
  intro l
  induction l with
  | nil => intro seen; simp [dedupFirstAux]
  | cons y ys ih =>
    intro seen
    rw [dedupFirstAux]
    by_cases hy : y ∈ seen
    · rw [if_pos hy]; exact ih seen
    · rw [if_neg hy]
      refine List.Nodup.cons ?_ (ih (y :: seen))
      intro hmem
      exact ((mem_dedupFirstAux y ys (y :: seen)).mp hmem).2 (List.mem_cons_self _ _)

theorem nodup_dedupFirst {α : Type} [DecidableEq α] (l : List α) :
    (dedupFirst l).Nodup := nodup_dedupFirstAux l []

theorem sortAsc_pairwise_lt (l : List ℤ) (h : l.Nodup) :
    (sortAsc l).Pairwise (· < ·) := by
  have hsorted : (sortAsc l).Pairwise (· ≤ ·) := List.sorted_insertionSort (· ≤ ·) l
  have hnodup : (sortAsc l).Nodup :=
    (List.perm_insertionSort (· ≤ ·) l).nodup_iff.mpr h
  exact (hsorted.and hnodup).imp (fun hab => lt_of_le_of_ne hab.1 hab.2)

theorem mem_sortAsc (x : ℤ) (l : List ℤ) : x ∈ sortAsc l ↔ x ∈ l :=
  (List.perm_insertionSort (· ≤ ·) l).mem_iff

theorem getD_map_range {α : Type} (n : ℕ) (f : ℕ → α) (i : ℕ) (d : α) (h : i < n) :
    ((List.range n).map f).getD i d = f i := by
  rw [List.getD_eq_getElem?_getD, List.getElem?_map, List.getElem?_range h]
  rfl

theorem sum_map_div_mul {α : Type} (l : List α) (g : α → ℚ) (c : ℚ) :
    (l.map (fun x => g x / c * 100)).sum = (l.map g).sum / c * 100 := by
  induction l with
  | nil => simp
  | cons x xs ih =>
    simp only [List.map_cons, List.sum_cons, ih]
    ring

theorem list_sum_nonpos (l : List ℚ) (h : ∀ x ∈ l, x ≤ 0) : l.sum ≤ 0 := by
  induction l with
  | nil => simp
  | cons x xs ih =>
    simp only [List.sum_cons]
    have hx := h x (List.mem_cons_self _ _)
    have hxs := ih (fun y hy => h y (List.mem_cons_of_mem _ hy))
    linarith

theorem list_sum_nonneg (l : List ℚ) (h : ∀ x ∈ l, 0 ≤ x) : 0 ≤ l.sum := by
  induction l with
  | nil => simp
  | cons x xs ih =>
    simp only [List.sum_cons]
    have hx := h x (List.mem_cons_self _ _)
    have hxs := ih (fun y hy => h y (List.mem_cons_of_mem _ hy))
    linarith

theorem eq_zero_of_sum_zero_nonneg (l : List ℚ) (h : ∀ x ∈ l, 0 ≤ x)
    (hs : l.sum = 0) : ∀ x ∈ l, x = 0 := by
  induction l with
  | nil => simp
  | cons y ys ih =>
    simp only [List.sum_cons] at hs
    have hy := h y (List.mem_cons_self _ _)
    have hys := list_sum_nonneg ys (fun x hx => h x (List.mem_cons_of_mem _ hx))
    have hy0 : y = 0 := by linarith
    have hsum0 : ys.sum = 0 := by linarith
    intro x hx
    rcases List.mem_cons.mp hx with h1 | h1
    · rw [h1, hy0]
    · exact ih (fun z hz => h z (List.mem_cons_of_mem _ hz)) hsum0 x h1

theorem alookup_append {β : Type} (k : String) (l1 l2 : List (String × β)) :
    alookup k (l1 ++ l2) =
      match alookup k l1 with
      | some v => some v
      | none => alookup k l2 := by
  induction l1 with
  | nil => simp [alookup]
  | cons p rest ih =>
    rw [List.cons_append, alookup, alookup]
    by_cases hp : p.1 = k
    · simp [hp]
    · simp only [if_neg hp]
      exact ih

/-! ## Claim C1 -/

/-- C1 (amended): for every document-topic matrix with at least one topic
column and every year, the per-topic dominant-document counts of the
year-scoped doc-count query sum to exactly the number of documents of that
year: the query truncates the topic columns to the first 15 before taking each
row's arg-max, so every document is assigned a dominant topic among the first
15 and none is excluded. -/
theorem claim1_year_counts_total (m : DocTopics) (labels : Labels) (year : ℤ)
    (hK : 1 ≤ m.K) (hwf : ∀ d ∈ m.docs, d.probs.length = m.K) :
    ((yearAllTopicsDocCounts (some m) labels year).map (fun c => c.docCount)).sum
      = (m.docs.filter (fun d => d.year = year)).length := by
  simp only [yearAllTopicsDocCounts]
  by_cases he : m.docs.filter (fun d => d.year = year) = []
  · simp [he]
  · rw [if_neg he, List.map_map]
    have hbound : ∀ d ∈ m.docs.filter (fun d => d.year = year),
        argmaxIdx (d.probs.take 15) < min m.K 15 := by
      intro d hd
      have hdm : d ∈ m.docs := List.mem_of_mem_filter hd
      have hlen : d.probs.length = m.K := hwf d hdm
      have htake : (d.probs.take 15).length = min 15 m.K := by
        rw [List.length_take, hlen]
      have hne : d.probs.take 15 ≠ [] := by
        intro h0
        have := congrArg List.length h0
        rw [htake] at this
        simp at this
        omega
      have := argmaxIdx_lt_length _ hne
      rw [htake] at this
      omega
    exact countP_partition _ _ _ hbound

/-- C1 counterexample: with 16 topic columns and one 2020 document whose
full-row arg-max is topic 15, the year-scoped counts sum to 1 (the document is
re-assigned a dominant topic among the first 15 by the truncated arg-max),
while the claim predicts 1 - 1 = 0 (exclusion of the out-of-range document). -/
theorem claim1_counterexample :
    ((yearAllTopicsDocCounts (some exDT1) emptyLabels 2020).map
        (fun c => c.docCount)).sum = 1
    ∧ (exDT1.docs.filter (fun d => d.year = 2020 ∧ 15 ≤ argmaxIdx d.probs)).length = 1
    ∧ ¬ (((yearAllTopicsDocCounts (some exDT1) emptyLabels 2020).map
          (fun c => c.docCount)).sum
        = (exDT1.docs.filter (fun d => d.year = 2020)).length
          - (exDT1.docs.filter
              (fun d => d.year = 2020 ∧ 15 ≤ argmaxIdx d.probs)).length) := by
  have hfull : argmaxIdx [0, 0, 0, 0, 0, 0, 0, 0, 0, 0, 0, 0, 0, 0, 0, (1 : ℚ)] = 15 := by
    norm_num [argmaxIdx]
  have htake : List.take 15 ([0, 0, 0, 0, 0, 0, 0, 0, 0, 0, 0, 0, 0, 0, 0, 1] : List ℚ)
      = [0, 0, 0, 0, 0, 0, 0, 0, 0, 0, 0, 0, 0, 0, 0] := rfl
  have hzero : argmaxIdx [(0 : ℚ), 0, 0, 0, 0, 0, 0, 0, 0, 0, 0, 0, 0, 0, 0] = 0 := by
    norm_num [argmaxIdx]
  have hrange : List.range 15 = [0, 1, 2, 3, 4, 5, 6, 7, 8, 9, 10, 11, 12, 13, 14] := by
    decide
  refine ⟨?_, ?_, ?_⟩
  · simp only [yearAllTopicsDocCounts, exDT1]
    norm_num [List.filter, hrange, List.countP_cons, List.countP_nil, htake, hzero]
  · norm_num [exDT1, List.filter, hfull]
  · simp only [yearAllTopicsDocCounts, exDT1]
    norm_num [List.filter, hrange, List.countP_cons, List.countP_nil, htake, hzero, hfull]

/-- Witness for C1 at the concrete 16-column matrix. -/
theorem claim1_witness :
    1 ≤ exDT1.K
    ∧ (∀ d ∈ exDT1.docs, d.probs.length = exDT1.K)
    ∧ ((yearAllTopicsDocCounts (some exDT1) emptyLabels 2020).map
        (fun c => c.docCount)).sum
      = (exDT1.docs.filter (fun d => d.year = 2020)).length :=
  ⟨by decide, by decide,
    claim1_year_counts_total exDT1 emptyLabels 2020 (by decide) (by decide)⟩

/-! ## Claim C4 -/

theorem getTopics_map_id (tt : List TermRow) (labels : Labels) :
    (getTopics tt labels).map (fun t => t.id) = (topicIds tt).take 15 := by
  simp [getTopics, List.map_take, List.map_map, Function.comp_def]

/-- C4: `get_topic` raises NotFound exactly when the requested (0-based) id is
not among the ids of the first 15 topics of the topic-term table, and any
successfully returned topic carries the requested id. -/
theorem claim4_get_topic_notfound (tt : List TermRow) (labels : Labels) (tid : ℤ) :
    (getTopic tt labels tid = none ↔ tid ∉ (topicIds tt).take 15)
    ∧ ∀ t, getTopic tt labels tid = some t → t.id = tid := by
  constructor
  · rw [getTopic, List.find?_eq_none, ← getTopics_map_id tt labels]
    constructor
    · intro h hmem
      rcases List.mem_map.mp hmem with ⟨t, ht, hid⟩
      exact h t ht (by simp [hid])
    · intro h t ht
      simp only [decide_eq_true_eq]
      intro hid
      exact h (List.mem_map.mpr ⟨t, ht, hid⟩)
  · intro t ht
    have := List.find?_some ht
    simpa using this

/-- Witness for C4: `get_topic(999)` on a table whose only topic id is 0 is
NotFound. -/
theorem claim4_witness : getTopic exTT7 (loadLabels emptyLabels) 999 = none :=
  (claim4_get_topic_notfound exTT7 (loadLabels emptyLabels) 999).1.mpr (by decide)

/-! ## Claim C5 -/

/-- C5: the yearly trend series has one row per calendar year occurring in the
document-topic matrix, rows strictly ordered by year, and for each topic
column the row value is the arithmetic mean of that topic's probabilities over
the documents of that year. -/
theorem claim5_yearly_trends (K : ℕ) (docs : List DocRow) :
    (∀ y : ℤ, y ∈ (yearlyTrends K docs).map (fun r => r.year) ↔ ∃ d ∈ docs, d.year = y)
    ∧ ((yearlyTrends K docs).map (fun r => r.year)).Pairwise (· < ·)
    ∧ ∀ row ∈ yearlyTrends K docs, row.vals.length = K ∧ ∀ t, t < K →
        row.vals.getD t 0 =
          ((docs.filter (fun d => d.year = row.year)).map
            (fun d => d.probs.getD t 0)).sum
            / ((docs.filter (fun d => d.year = row.year)).length : ℚ) := by
  have hyears : (yearlyTrends K docs).map (fun r => r.year)
      = sortAsc (dedupFirst (docs.map (fun d => d.year))) := by
    simp [yearlyTrends, List.map_map, Function.comp_def]
  refine ⟨?_, ?_, ?_⟩
  · intro y
    rw [hyears, mem_sortAsc, mem_dedupFirst, List.mem_map]
  · rw [hyears]
    exact sortAsc_pairwise_lt _ (nodup_dedupFirst _)
  · intro row hrow
    rcases List.mem_map.mp hrow with ⟨y, _, hbuild⟩
    constructor
    · rw [← hbuild]
      simp
    · intro t ht
      rw [← hbuild]
      show ((List.range K).map (fun s =>
          ((docs.filter (fun d => d.year = y)).map (fun d => d.probs.getD s 0)).sum
            / ((docs.filter (fun d => d.year = y)).length : ℚ))).getD t 0
        = ((docs.filter (fun d => d.year = y)).map (fun d => d.probs.getD t 0)).sum
            / ((docs.filter (fun d => d.year = y)).length : ℚ)
      rw [getD_map_range K _ t _ ht]

/-- Witness for C5 on a concrete two-year matrix. -/
theorem claim5_witness :
    ((yearlyTrends 1 exDocs5).map (fun r => r.year)).Pairwise (· < ·)
    ∧ (2020 : ℤ) ∈ (yearlyTrends 1 exDocs5).map (fun r => r.year) :=
  ⟨(claim5_yearly_trends 1 exDocs5).2.1,
    ((claim5_yearly_trends 1 exDocs5).1 2020).mpr
      ⟨⟨"a", 2020, [3/20]⟩, List.mem_cons_self _ _, rfl⟩⟩

/-! ## Claim C10 -/

/-- C10: `get_trends` reads the label cache without loading it. On a fresh
service instance every emitted label is the fallback `Topic i+1`; after
`_load_labels` has run (with any JSON label file) the same call emits the
hard-coded custom label for each displayed topic, so the output depends on the
order of prior operations. -/
theorem claim10_trends_label_order (tr : Trends) (json : Labels) (i : ℕ)
    (h : i < min tr.K 15) :
    (((getTrends tr emptyLabels).topics.getD i ⟨0, "", []⟩).label
        = "Topic " ++ toString (i + 1))
    ∧ (((getTrends tr (loadLabels json)).topics.getD i ⟨0, "", []⟩).label
        = (customLabels (i : ℤ)).getD "") := by
  have h15 : i < 15 := lt_of_lt_of_le h (min_le_right _ _)
  have hc : ∃ s, customLabels (i : ℤ) = some s := by
    interval_cases i <;> exact ⟨_, rfl⟩
  rcases hc with ⟨s, hs⟩
  constructor
  · simp only [getTrends]
    rw [getD_map_range _ _ i _ h]
    simp [emptyLabels]
  · simp only [getTrends]
    rw [getD_map_range _ _ i _ h]
    simp [loadLabels, hs]

/-- Witness for C10 on a one-column trends table: the fresh cache yields
`Topic 1`; after loading (with a JSON label present for topic 0) the custom
label wins. -/
theorem claim10_witness :
    0 < min exTrends.K 15
    ∧ ((getTrends exTrends emptyLabels).topics.getD 0 ⟨0, "", []⟩).label = "Topic 1"
    ∧ ((getTrends exTrends (loadLabels (fun _ => some "from json"))).topics.getD 0
        ⟨0, "", []⟩).label = (customLabels 0).getD "" :=
  ⟨by decide,
    (claim10_trends_label_order exTrends (fun _ => some "from json") 0 (by decide)).1,
    (claim10_trends_label_order exTrends (fun _ => some "from json") 0 (by decide)).2⟩

/-! ## Claim C2 -/

theorem variation_pos (r : ℚ) (i : ℕ) (h0 : 0 ≤ r) (h1 : r < 1) (hi : i ≤ 29) :
    0 < 1 + (r - 1/2) * (3/10) * (1 - (i : ℚ)/30) := by
  have hiq : (i : ℚ) ≤ 29 := by exact_mod_cast hi
  have hiq0 : (0 : ℚ) ≤ (i : ℚ) := by positivity
  nlinarith

theorem primaryTerms_percent (gs : List TermRow) (tf : ℚ) (rand : ℕ → ℚ)
    (hw : ∀ r ∈ gs, 0 ≤ r.weight) (hr : ∀ i, 0 ≤ rand i ∧ rand i < 1)
    (hlen : gs.length ≤ 30) :
    (∀ t ∈ primaryTerms gs tf rand, 0 ≤ t.percent)
    ∧ (((primaryTerms gs tf rand).map (fun t => t.percent)).sum = 100
       ∨ ∀ t ∈ primaryTerms gs tf rand, t.percent = 0) := by
  set A := ((List.range gs.length).zip gs).map (fun p =>
    (p.2.term, p.2.weight * tf *
      (1 + (rand p.1 - 1/2) * (3/10) * (1 - (p.1 : ℚ)/30)))) with hA
  set total := (A.map (fun q => q.2)).sum with htotal
  have hterms : primaryTerms gs tf rand = A.map (fun q =>
      ({ term := q.1, weight := q.2
         percent := if 0 < total then q.2 / total * 100 else 0 } : TermOut)) := rfl
  have hq : ∀ q ∈ A, ∃ i : ℕ, ∃ r : TermRow, r ∈ gs ∧ i < gs.length ∧
      q.2 = r.weight * tf * (1 + (rand i - 1/2) * (3/10) * (1 - (i : ℚ)/30)) := by
    intro q hqA
    rw [hA] at hqA
    rcases List.mem_map.mp hqA with ⟨p, hp, rfl⟩
    obtain ⟨hp1, hp2⟩ := List.of_mem_zip hp
    exact ⟨p.1, p.2, hp2, List.mem_range.mp hp1, rfl⟩
  have hvar : ∀ i : ℕ, i < gs.length →
      0 < 1 + (rand i - 1/2) * (3/10) * (1 - (i : ℚ)/30) := by
    intro i hi
    exact variation_pos (rand i) i (hr i).1 (hr i).2 (by omega)
  have hcase : 0 < total → ∀ q ∈ A, 0 ≤ q.2 := by
    intro htot q hqA
    by_contra hneg
    push_neg at hneg
    rcases hq q hqA with ⟨i, r, hrgs, hi, hq2⟩
    have hvari := hvar i hi
    have hwr := hw r hrgs
    have htf : tf < 0 := by
      by_contra htfge
      push_neg at htfge
      have hgood : 0 ≤ r.weight * tf *
          (1 + (rand i - 1/2) * (3/10) * (1 - (i : ℚ)/30)) :=
        mul_nonneg (mul_nonneg hwr htfge) hvari.le
      rw [← hq2] at hgood
      linarith
    have hall : ∀ x ∈ A.map (fun q => q.2), x ≤ 0 := by
      intro x hx
      rcases List.mem_map.mp hx with ⟨q2, hq2A, rfl⟩
      rcases hq q2 hq2A with ⟨j, r2, hr2, hj, he⟩
      have hvarj := hvar j hj
      have hwr2 := hw r2 hr2
      have hprod : 0 ≤ r2.weight *
          (1 + (rand j - 1/2) * (3/10) * (1 - (j : ℚ)/30)) :=
        mul_nonneg hwr2 hvarj.le
      have hle : (r2.weight *
          (1 + (rand j - 1/2) * (3/10) * (1 - (j : ℚ)/30))) * tf ≤ 0 :=
        mul_nonpos_iff.mpr (Or.inl ⟨hprod, htf.le⟩)
      rw [he]
      nlinarith [hle]
    have hle := list_sum_nonpos _ hall
    rw [← htotal] at hle
    linarith
  refine ⟨?_, ?_⟩
  · intro t ht
    rw [hterms] at ht
    rcases List.mem_map.mp ht with ⟨q, hqA, rfl⟩
    show (0 : ℚ) ≤ if 0 < total then q.2 / total * 100 else 0
    by_cases htot : 0 < total
    · rw [if_pos htot]
      exact mul_nonneg (div_nonneg (hcase htot q hqA) htot.le) (by norm_num)
    · rw [if_neg htot]
  · by_cases htot : 0 < total
    · left
      rw [hterms, List.map_map]
      have hcomp : ((fun t : TermOut => t.percent) ∘ (fun q : String × ℚ =>
          ({ term := q.1, weight := q.2
             percent := if 0 < total then q.2 / total * 100 else 0 } : TermOut)))
          = fun q : String × ℚ => q.2 / total * 100 := by
        funext q
        simp [Function.comp_def, if_pos htot]
      rw [hcomp, sum_map_div_mul A (fun q => q.2) total, ← htotal,
        div_self (ne_of_gt htot)]
      norm_num
    · right
      intro t ht
      rw [hterms] at ht
      rcases List.mem_map.mp ht with ⟨q, hqA, rfl⟩
      show (if 0 < total then q.2 / total * 100 else 0) = 0
      rw [if_neg htot]

theorem fallbackTerms_percent (tt : List TermRow) (topic_idx : ℤ)
    (hw : ∀ r ∈ tt, 0 ≤ r.weight) :
    (∀ t ∈ fallbackTerms tt topic_idx, 0 ≤ t.percent)
    ∧ (((fallbackTerms tt topic_idx).map (fun t => t.percent)).sum = 100
       ∨ ∀ t ∈ fallbackTerms tt topic_idx, t.percent = 0) := by
  by_cases hg : topicGroup tt topic_idx = []
  · simp only [fallbackTerms, if_pos hg]
    simp
  · set gs := nlargestBy 30 (fun r => r.weight) (topicGroup tt topic_idx) with hgs
    set s := (gs.map (fun r => r.weight)).sum with hs
    have hterms : fallbackTerms tt topic_idx = gs.map (fun r =>
        ({ term := r.term, weight := r.weight
           percent := r.weight / (if s = 0 then 1 else s) * 100 } : TermOut)) := by
      simp only [fallbackTerms, if_neg hg]
    have hws : ∀ r ∈ gs, 0 ≤ r.weight := fun r hrg =>
      hw r (List.mem_of_mem_filter (mem_of_mem_nlargestBy hrg))
    have hs0 : 0 ≤ s := by
      rw [hs]
      apply list_sum_nonneg
      intro x hx
      rcases List.mem_map.mp hx with ⟨r, hrg, rfl⟩
      exact hws r hrg
    by_cases hz : s = 0
    · have hall0 : ∀ r ∈ gs, r.weight = 0 := by
        intro r hrg
        have := eq_zero_of_sum_zero_nonneg (gs.map (fun r => r.weight))
          (by
            intro x hx
            rcases List.mem_map.mp hx with ⟨r2, hr2, rfl⟩
            exact hws r2 hr2)
          (by rw [← hs]; exact hz)
        exact this r.weight (List.mem_map.mpr ⟨r, hrg, rfl⟩)
      refine ⟨?_, Or.inr ?_⟩
      · intro t ht
        rw [hterms] at ht
        rcases List.mem_map.mp ht with ⟨r, hrg, rfl⟩
        show (0 : ℚ) ≤ r.weight / (if s = 0 then 1 else s) * 100
        rw [if_pos hz, hall0 r hrg]
        norm_num
      · intro t ht
        rw [hterms] at ht
        rcases List.mem_map.mp ht with ⟨r, hrg, rfl⟩
        show r.weight / (if s = 0 then 1 else s) * 100 = 0
        rw [if_pos hz, hall0 r hrg]
        norm_num
    · have hspos : 0 < s := lt_of_le_of_ne hs0 (Ne.symm hz)
      refine ⟨?_, Or.inl ?_⟩
      · intro t ht
        rw [hterms] at ht
        rcases List.mem_map.mp ht with ⟨r, hrg, rfl⟩
        show (0 : ℚ) ≤ r.weight / (if s = 0 then 1 else s) * 100
        rw [if_neg hz]
        exact mul_nonneg (div_nonneg (hws r hrg) hspos.le) (by norm_num)
      · rw [hterms, List.map_map]
        have hcomp : ((fun t : TermOut => t.percent) ∘ (fun r : TermRow =>
            ({ term := r.term, weight := r.weight
               percent := r.weight / (if s = 0 then 1 else s) * 100 } : TermOut)))
            = fun r : TermRow => r.weight / s * 100 := by
          funext r
          simp [Function.comp_def, if_neg hz]
        rw [hcomp, sum_map_div_mul gs (fun r => r.weight) s, ← hs,
          div_self (ne_of_gt hspos)]
        norm_num

/-- C2 (amended): every percent field emitted by `get_topic_year_detail` is
non-negative (given the artifact's non-negative term weights), and the percent
fields sum to exactly 100 whenever the path's normalizing total is positive;
when it is not (e.g. the primary path for any year up to 2010, whose year
factor `1 + (year - 2020) * 0.1` is non-positive, or an all-zero top-30 weight
sum on the fallback path), every percent field is 0. -/
theorem claim2_percent_fields (dt : Option DocTopics) (tt : List TermRow)
    (tr : Option Trends) (labels : Labels) (rand : ℕ → ℚ) (topic1 : ℕ) (year : ℤ)
    (hw : ∀ r ∈ tt, 0 ≤ r.weight) (hr : ∀ i, 0 ≤ rand i ∧ rand i < 1) :
    (∀ t ∈ (getTopicYearDetail dt tt tr labels rand topic1 year).terms, 0 ≤ t.percent)
    ∧ (((getTopicYearDetail dt tt tr labels rand topic1 year).terms.map
          (fun t => t.percent)).sum = 100
       ∨ ∀ t ∈ (getTopicYearDetail dt tt tr labels rand topic1 year).terms,
          t.percent = 0) := by
  have H : (getTopicYearDetail dt tt tr labels rand topic1 year).terms = []
      ∨ (∃ gs tf, (getTopicYearDetail dt tt tr labels rand topic1 year).terms
            = primaryTerms gs tf rand
          ∧ (∀ r ∈ gs, 0 ≤ r.weight) ∧ gs.length ≤ 30)
      ∨ (getTopicYearDetail dt tt tr labels rand topic1 year).terms
          = fallbackTerms tt ((topic1 : ℤ) - 1) := by
    cases dt with
    | none => exact Or.inl rfl
    | some m =>
      simp only [getTopicYearDetail]
      by_cases hyd : m.docs.filter (fun d => d.year = year) = []
      · rw [if_pos hyd]
        exact Or.inl rfl
      · rw [if_neg hyd]
        by_cases hK : m.K = 0
        · rw [if_pos hK]
          exact Or.inr (Or.inr rfl)
        · rw [if_neg hK]
          by_cases hdc : (m.docs.filter (fun d => d.year = year)).countP
              (fun d => (argmaxIdx d.probs : ℤ) = (topic1 : ℤ) - 1) = 0
          · rw [if_pos hdc]
            exact Or.inl rfl
          · rw [if_neg hdc]
            by_cases hidx : 0 ≤ (topic1 : ℤ) - 1 ∧ (topic1 : ℤ) - 1 < (m.K : ℤ)
            · rw [if_pos hidx]
              by_cases hgrp : topicGroup tt ((topic1 : ℤ) - 1) = []
              · rw [if_pos hgrp]
                exact Or.inl rfl
              · rw [if_neg hgrp]
                refine Or.inr (Or.inl ⟨_, _, rfl, ?_, ?_⟩)
                · intro r hrg
                  exact hw r (List.mem_of_mem_filter (mem_of_mem_nlargestBy hrg))
                · exact length_nlargestBy_le 30 _ _
            · rw [if_neg hidx]
              exact Or.inr (Or.inr rfl)
  rcases H with hE | ⟨gs, tf, hE, hgw, hglen⟩ | hE
  · rw [hE]
    simp
  · rw [hE]
    exact primaryTerms_percent gs tf rand hgw hr hglen
  · rw [hE]
    exact fallbackTerms_percent tt _ hw

/-- C2 counterexample: for year 2010 the primary path's year factor is 0, so
every adjusted weight is 0, the positive-total guard fails, and the returned
term list is non-empty with every percent equal to 0 — the percents sum to 0,
not 100. -/
theorem claim2_counterexample :
    (getTopicYearDetail (some exDT2) exTT2 none emptyLabels
        (fun _ => 0) 1 2010).terms ≠ []
    ∧ ((getTopicYearDetail (some exDT2) exTT2 none emptyLabels
        (fun _ => 0) 1 2010).terms.map (fun t => t.percent)).sum = 0 := by
  have hm : argmaxIdx [(1 : ℚ)] = 0 := by norm_num [argmaxIdx]
  have hrangeone : List.range 1 = [0] := by decide
  constructor
  · simp only [getTopicYearDetail, exDT2, exTT2]
    norm_num [List.filter, List.countP_cons, List.countP_nil, hm, topicGroup,
      nlargestBy, List.insertionSort, List.orderedInsert, primaryTerms,
      hrangeone, List.zip_cons_cons, List.zip_nil_right, Function.comp_def]
  · simp only [getTopicYearDetail, exDT2, exTT2]
    norm_num [List.filter, List.countP_cons, List.countP_nil, hm, topicGroup,
      nlargestBy, List.insertionSort, List.orderedInsert, primaryTerms,
      hrangeone, List.zip_cons_cons, List.zip_nil_right, Function.comp_def]

/-- Witness for C2 at a concrete input. -/
theorem claim2_witness :
    (∀ r ∈ exTT2, 0 ≤ r.weight)
    ∧ ∀ t ∈ (getTopicYearDetail none exTT2 none emptyLabels
        (fun _ => 0) 1 2020).terms, 0 ≤ t.percent :=
  ⟨by norm_num [exTT2],
    (claim2_percent_fields none exTT2 none emptyLabels (fun _ => 0) 1 2020
      (by norm_num [exTT2]) (fun i => ⟨le_refl 0, by norm_num⟩)).1⟩

/-! ## Claims C3 and C6: keyword accumulation and case-insensitive merge -/

theorem foldl_accumStep (dc : ℕ) (gs : List TermRow) :
    ∀ (m : List (String × (ℤ × ℚ))),
    (∀ r ∈ gs, alookup r.term m = none) →
    gs.Pairwise (fun a b => a.term ≠ b.term) →
    gs.foldl (accumStep dc) m
      = m ++ gs.map (fun r => (r.term, (estCount r.weight dc, r.weight))) := by
  induction gs with
  | nil => intro m _ _; simp
  | cons r rest ih =>
    intro m hm hpw
    have hrm : alookup r.term m = none := hm r (List.mem_cons_self _ _)
    rw [List.foldl_cons]
    have hstep : accumStep dc m r = m ++ [(r.term, (estCount r.weight dc, r.weight))] := by
      rw [accumStep, hrm]
    rw [hstep]
    rw [ih (m ++ [(r.term, (estCount r.weight dc, r.weight))]) ?_
      (List.pairwise_cons.mp hpw).2]
    · simp
    · intro r2 hr2
      rw [alookup_append, hm r2 (List.mem_cons_of_mem _ hr2)]
      simp [alookup, (List.pairwise_cons.mp hpw).1 r2 hr2]

theorem foldl_mergeStep (kws : List KW) :
    ∀ (m : List (String × MEntry)),
    (∀ kw ∈ kws, kw.term ≠ "") →
    (∀ kw ∈ kws, alookup (lowerStr kw.term) m = none) →
    kws.Pairwise (fun a b => lowerStr a.term ≠ lowerStr b.term) →
    kws.foldl mergeStep m = m ++ kws.map (fun kw =>
      (lowerStr kw.term, (⟨kw.term, kw.count, kw.weight, 0⟩ : MEntry))) := by
  induction kws with
  | nil => intro m _ _ _; simp
  | cons kw rest ih =>
    intro m hne hm hpw
    have hkm : alookup (lowerStr kw.term) m = none := hm kw (List.mem_cons_self _ _)
    rw [List.foldl_cons]
    have hstep : mergeStep m kw = m ++ [(lowerStr kw.term,
        (⟨kw.term, kw.count, kw.weight, 0⟩ : MEntry))] := by
      rw [mergeStep, if_neg (hne kw (List.mem_cons_self _ _))]
      simp only [hkm]
    rw [hstep]
    rw [ih (m ++ [(lowerStr kw.term, (⟨kw.term, kw.count, kw.weight, 0⟩ : MEntry))])
      (fun k hk => hne k (List.mem_cons_of_mem _ hk)) ?_
      (List.pairwise_cons.mp hpw).2]
    · simp
    · intro k2 hk2
      rw [alookup_append, hm k2 (List.mem_cons_of_mem _ hk2)]
      simp [alookup, (List.pairwise_cons.mp hpw).1 k2 hk2]

theorem mergeCaseInsensitive_of_distinct (kws : List KW)
    (h1 : ∀ kw ∈ kws, kw.term ≠ "")
    (h2 : kws.Pairwise (fun a b => lowerStr a.term ≠ lowerStr b.term)) :
    mergeCaseInsensitive kws = kws := by
  rw [mergeCaseInsensitive, foldl_mergeStep kws [] h1 (fun kw _ => rfl) h2]
  have hcomp : ((fun p : String × MEntry =>
      ({ term := p.2.term, count := p.2.count, weight := p.2.weight } : KW)) ∘
      (fun kw : KW => (lowerStr kw.term, (⟨kw.term, kw.count, kw.weight, 0⟩ : MEntry))))
      = fun kw : KW => kw := rfl
  rw [List.nil_append, List.map_map, hcomp]
  simp

theorem mem_of_mem_rankKeywords {kw : KW} {l : List KW}
    (h : kw ∈ rankKeywords l) : kw ∈ l :=
  (List.perm_insertionSort _ l).mem_iff.mp (List.mem_of_mem_take h)

theorem aupdate_append_of_absent {β : Type} (k : String) (v : β)
    (l1 l2 : List (String × β)) (h : alookup k l1 = none) :
    aupdate k v (l1 ++ l2) = l1 ++ aupdate k v l2 := by
  induction l1 with
  | nil => simp
  | cons p rest ih =>
    rw [alookup] at h
    by_cases hp : p.1 = k
    · rw [if_pos hp] at h
      cases h
    · rw [if_neg hp] at h
      rw [List.cons_append, aupdate, if_neg hp, ih h, List.cons_append]

theorem foldl_aaStep_absent (dc : ℕ) (gs : List TermRow) :
    ∀ (m : List (String × (ℚ × ℤ))),
    (∀ r ∈ gs, alookup r.term m = none) →
    gs.Pairwise (fun a b => a.term ≠ b.term) →
    gs.foldl (aaStep dc) m
      = m ++ gs.map (fun r => (r.term, (r.weight, estCount r.weight dc))) := by
  induction gs with
  | nil => intro m _ _; simp
  | cons r rest ih =>
    intro m hm hpw
    have hrm := hm r (List.mem_cons_self _ _)
    rw [List.foldl_cons]
    have hstep : aaStep dc m r = m ++ [(r.term, (r.weight, estCount r.weight dc))] := by
      rw [aaStep, hrm]
    rw [hstep, ih _ ?_ (List.pairwise_cons.mp hpw).2]
    · simp
    · intro r2 hr2
      rw [alookup_append, hm r2 (List.mem_cons_of_mem _ hr2)]
      simp [alookup, (List.pairwise_cons.mp hpw).1 r2 hr2]

theorem foldl_aaStep_present (dc : ℕ) (gs : List TermRow) :
    ∀ (pre : List (String × (ℚ × ℤ))) (c : TermRow → ℚ × ℤ),
    (∀ r ∈ gs, alookup r.term pre = none) →
    gs.Pairwise (fun a b => a.term ≠ b.term) →
    gs.foldl (aaStep dc) (pre ++ gs.map (fun r => (r.term, c r)))
      = pre ++ gs.map (fun r =>
          (r.term, ((c r).1, (c r).2 + estCount r.weight dc))) := by
  induction gs with
  | nil => intro pre c _ _; simp
  | cons r rest ih =>
    intro pre c hpre hpw
    rw [List.map_cons, List.foldl_cons]
    have hlook : alookup r.term
        (pre ++ (r.term, c r) :: rest.map (fun r2 => (r2.term, c r2))) = some (c r) := by
      rw [alookup_append, hpre r (List.mem_cons_self _ _)]
      simp [alookup]
    have hstep : aaStep dc
        (pre ++ (r.term, c r) :: rest.map (fun r2 => (r2.term, c r2))) r
        = (pre ++ [(r.term, ((c r).1, (c r).2 + estCount r.weight dc))])
          ++ rest.map (fun r2 => (r2.term, c r2)) := by
      simp only [aaStep, hlook]
      rw [aupdate_append_of_absent _ _ _ _ (hpre r (List.mem_cons_self _ _)),
        aupdate, if_pos rfl]
      simp
    rw [hstep]
    rw [ih (pre ++ [(r.term, ((c r).1, (c r).2 + estCount r.weight dc))]) c ?_
      (List.pairwise_cons.mp hpw).2]
    · simp
    · intro r2 hr2
      rw [alookup_append, hpre r2 (List.mem_cons_of_mem _ hr2)]
      simp [alookup, (List.pairwise_cons.mp hpw).1 r2 hr2]

theorem foldl_yearStep_group_empty (m : DocTopics) (tt : List TermRow) (tidx : ℤ)
    (hgrp : topicGroup tt tidx = []) (ys : List ℤ) :
    ∀ acc, ys.foldl (yearStep m tt tidx) acc = acc := by
  induction ys with
  | nil => intro acc; rfl
  | cons y rest ih =>
    intro acc
    rw [List.foldl_cons]
    have hstep : yearStep m tt tidx acc y = acc := by
      rw [yearStep]
      by_cases h1 : m.docs.filter (fun d => d.year = y) = []
      · rw [if_pos h1]
      · rw [if_neg h1]
        by_cases h2 : dominantCountYear m tidx y = 0
        · rw [if_pos h2]
        · rw [if_neg h2, if_pos hgrp]
    rw [hstep, ih]

theorem foldl_yearStep_S (m : DocTopics) (tt : List TermRow) (tidx : ℤ)
    (hgrp : topicGroup tt tidx ≠ [])
    (hdist2 : (nlargestBy 30 (fun r => r.weight) (topicGroup tt tidx)).Pairwise
      (fun a b => a.term ≠ b.term)) (ys : List ℤ) :
    ∀ (f : TermRow → ℤ),
    ys.foldl (yearStep m tt tidx)
      ((nlargestBy 30 (fun r => r.weight) (topicGroup tt tidx)).map
        (fun r => (r.term, (r.weight, f r))))
      = (nlargestBy 30 (fun r => r.weight) (topicGroup tt tidx)).map
        (fun r => (r.term,
          (r.weight, f r + (ys.map (yearContrib m tidx r.weight)).sum))) := by
  induction ys with
  | nil => intro f; simp
  | cons y rest ih =>
    intro f
    rw [List.foldl_cons]
    by_cases h1 : m.docs.filter (fun d => d.year = y) = []
    · rw [show yearStep m tt tidx ((nlargestBy 30 (fun r => r.weight)
          (topicGroup tt tidx)).map (fun r => (r.term, (r.weight, f r)))) y
          = (nlargestBy 30 (fun r => r.weight) (topicGroup tt tidx)).map
            (fun r => (r.term, (r.weight, f r))) from by rw [yearStep, if_pos h1]]
      rw [ih f]
      apply List.map_congr_left
      intro r _
      simp [yearContrib, h1]
    · by_cases h2 : dominantCountYear m tidx y = 0
      · rw [show yearStep m tt tidx ((nlargestBy 30 (fun r => r.weight)
            (topicGroup tt tidx)).map (fun r => (r.term, (r.weight, f r)))) y
            = (nlargestBy 30 (fun r => r.weight) (topicGroup tt tidx)).map
              (fun r => (r.term, (r.weight, f r))) from by
          rw [yearStep, if_neg h1, if_pos h2]]
        rw [ih f]
        apply List.map_congr_left
        intro r _
        simp [yearContrib, h1, h2]
      · have h3 := foldl_aaStep_present (dominantCountYear m tidx y)
          (nlargestBy 30 (fun r => r.weight) (topicGroup tt tidx)) []
          (fun r => (r.weight, f r)) (fun r _ => rfl) hdist2
        simp only [List.nil_append] at h3
        rw [show yearStep m tt tidx ((nlargestBy 30 (fun r => r.weight)
            (topicGroup tt tidx)).map (fun r => (r.term, (r.weight, f r)))) y
            = (nlargestBy 30 (fun r => r.weight) (topicGroup tt tidx)).map
              (fun r => (r.term, (r.weight, f r + estCount r.weight
                (dominantCountYear m tidx y)))) from by
          rw [yearStep, if_neg h1, if_neg h2, if_neg hgrp]
          exact h3]
        rw [ih (fun r => f r + estCount r.weight (dominantCountYear m tidx y))]
        apply List.map_congr_left
        intro r _
        simp [yearContrib, h1, h2, add_assoc]

theorem foldl_yearStep_from_empty (m : DocTopics) (tt : List TermRow) (tidx : ℤ)
    (hgrp : topicGroup tt tidx ≠ [])
    (hdist2 : (nlargestBy 30 (fun r => r.weight) (topicGroup tt tidx)).Pairwise
      (fun a b => a.term ≠ b.term)) (ys : List ℤ) :
    ys.foldl (yearStep m tt tidx) [] = []
    ∨ ys.foldl (yearStep m tt tidx) []
      = (nlargestBy 30 (fun r => r.weight) (topicGroup tt tidx)).map
        (fun r => (r.term,
          (r.weight, (ys.map (yearContrib m tidx r.weight)).sum))) := by
  induction ys with
  | nil => exact Or.inl rfl
  | cons y rest ih =>
    rw [List.foldl_cons]
    by_cases h1 : m.docs.filter (fun d => d.year = y) = []
    · rw [show yearStep m tt tidx [] y = [] from by rw [yearStep, if_pos h1]]
      rcases ih with h | h
      · exact Or.inl h
      · right
        rw [h]
        apply List.map_congr_left
        intro r _
        simp [yearContrib, h1]
    · by_cases h2 : dominantCountYear m tidx y = 0
      · rw [show yearStep m tt tidx [] y = [] from by
          rw [yearStep, if_neg h1, if_pos h2]]
        rcases ih with h | h
        · exact Or.inl h
        · right
          rw [h]
          apply List.map_congr_left
          intro r _
          simp [yearContrib, h1, h2]
      · right
        have habs := foldl_aaStep_absent (dominantCountYear m tidx y)
          (nlargestBy 30 (fun r => r.weight) (topicGroup tt tidx)) []
          (fun r _ => rfl) hdist2
        rw [List.nil_append] at habs
        rw [show yearStep m tt tidx [] y
            = (nlargestBy 30 (fun r => r.weight) (topicGroup tt tidx)).map
              (fun r => (r.term, (r.weight, estCount r.weight
                (dominantCountYear m tidx y)))) from by
          rw [yearStep, if_neg h1, if_neg h2, if_neg hgrp]
          exact habs]
        rw [foldl_yearStep_S m tt tidx hgrp hdist2 rest
          (fun r => estCount r.weight (dominantCountYear m tidx y))]
        apply List.map_congr_left
        intro r _
        simp [yearContrib, h1, h2]

theorem pairwise_rel_of_ne {α : Type} {R : α → α → Prop}
    (hsym : ∀ {a b : α}, R a b → R b a) :
    ∀ {l : List α}, l.Pairwise R → ∀ {a}, a ∈ l → ∀ {b}, b ∈ l → a ≠ b → R a b := by
  intro l hl
  induction hl with
  | nil =>
    intro a ha
    cases ha
  | cons hhead _ ih =>
    intro a ha b hb hab
    rcases List.mem_cons.mp ha with rfl | ha2
    · rcases List.mem_cons.mp hb with rfl | hb2
      · exact absurd rfl hab
      · exact hhead b hb2
    · rcases List.mem_cons.mp hb with rfl | hb2
      · exact hsym (hhead a ha2)
      · exact ih ha2 hb2 hab

theorem alookup_map_terms_none (k : String) (f : TermRow → ℤ × ℚ)
    (gs : List TermRow) (h : ∀ r ∈ gs, r.term ≠ k) :
    alookup k (gs.map (fun r => (r.term, f r))) = none := by
  induction gs with
  | nil => rfl
  | cons r rest ih =>
    rw [List.map_cons, alookup, if_neg (h r (List.mem_cons_self _ _))]
    exact ih (fun r2 h2 => h r2 (List.mem_cons_of_mem _ h2))

theorem foldl_accumStep_present (dc : ℕ) (gs : List TermRow) :
    ∀ (pre : List (String × (ℤ × ℚ))) (c : TermRow → ℤ × ℚ),
    (∀ r ∈ gs, alookup r.term pre = none) →
    gs.Pairwise (fun a b => a.term ≠ b.term) →
    gs.foldl (accumStep dc) (pre ++ gs.map (fun r => (r.term, c r)))
      = pre ++ gs.map (fun r =>
          (r.term, ((c r).1 + estCount r.weight dc, (c r).2 + r.weight))) := by
  induction gs with
  | nil => intro pre c _ _; simp
  | cons r rest ih =>
    intro pre c hpre hpw
    rw [List.map_cons, List.foldl_cons]
    have hlook : alookup r.term
        (pre ++ (r.term, c r) :: rest.map (fun r2 => (r2.term, c r2))) = some (c r) := by
      rw [alookup_append, hpre r (List.mem_cons_self _ _)]
      simp [alookup]
    have hstep : accumStep dc
        (pre ++ (r.term, c r) :: rest.map (fun r2 => (r2.term, c r2))) r
        = (pre ++ [(r.term, ((c r).1 + estCount r.weight dc, (c r).2 + r.weight))])
          ++ rest.map (fun r2 => (r2.term, c r2)) := by
      simp only [accumStep, hlook]
      rw [aupdate_append_of_absent _ _ _ _ (hpre r (List.mem_cons_self _ _)),
        aupdate, if_pos rfl]
      simp
    rw [hstep]
    rw [ih (pre ++ [(r.term, ((c r).1 + estCount r.weight dc, (c r).2 + r.weight))]) c ?_
      (List.pairwise_cons.mp hpw).2]
    · simp
    · intro r2 hr2
      rw [alookup_append, hpre r2 (List.mem_cons_of_mem _ hr2)]
      simp [alookup, (List.pairwise_cons.mp hpw).1 r2 hr2]

theorem foldl_tyStep_S (m : DocTopics) (tt : List TermRow) (tidx : ℤ)
    (hdist2 : (nlargestBy (topicGroup tt tidx).length (fun r => r.weight)
      (topicGroup tt tidx)).Pairwise (fun a b => a.term ≠ b.term)) (ys : List ℤ) :
    ∀ (f : TermRow → ℤ) (g : TermRow → ℚ),
    ys.foldl (tyStep m tt tidx)
      ((nlargestBy (topicGroup tt tidx).length (fun r => r.weight)
        (topicGroup tt tidx)).map (fun r => (r.term, (f r, g r))))
      = (nlargestBy (topicGroup tt tidx).length (fun r => r.weight)
        (topicGroup tt tidx)).map (fun r => (r.term,
          (f r + (ys.map (yearContrib m tidx r.weight)).sum,
           g r + (ys.map (wContrib m tidx r.weight)).sum))) := by
  induction ys with
  | nil => intro f g; simp
  | cons y rest ih =>
    intro f g
    rw [List.foldl_cons]
    by_cases h1 : m.docs.filter (fun d => d.year = y) = []
    · rw [show tyStep m tt tidx ((nlargestBy (topicGroup tt tidx).length
          (fun r => r.weight) (topicGroup tt tidx)).map
          (fun r => (r.term, (f r, g r)))) y
          = (nlargestBy (topicGroup tt tidx).length (fun r => r.weight)
            (topicGroup tt tidx)).map (fun r => (r.term, (f r, g r))) from by
        rw [tyStep, if_pos h1]]
      rw [ih f g]
      apply List.map_congr_left
      intro r _
      simp [yearContrib, wContrib, h1]
    · by_cases h2 : dominantCountYear m tidx y = 0
      · rw [show tyStep m tt tidx ((nlargestBy (topicGroup tt tidx).length
            (fun r => r.weight) (topicGroup tt tidx)).map
            (fun r => (r.term, (f r, g r)))) y
            = (nlargestBy (topicGroup tt tidx).length (fun r => r.weight)
              (topicGroup tt tidx)).map (fun r => (r.term, (f r, g r))) from by
          rw [tyStep, if_neg h1, if_pos h2]]
        rw [ih f g]
        apply List.map_congr_left
        intro r _
        simp [yearContrib, wContrib, h1, h2]
      · have h3 := foldl_accumStep_present (dominantCountYear m tidx y)
          (nlargestBy (topicGroup tt tidx).length (fun r => r.weight)
            (topicGroup tt tidx)) []
          (fun r => (f r, g r)) (fun r _ => rfl) hdist2
        simp only [List.nil_append] at h3
        rw [show tyStep m tt tidx ((nlargestBy (topicGroup tt tidx).length
            (fun r => r.weight) (topicGroup tt tidx)).map
            (fun r => (r.term, (f r, g r)))) y
            = (nlargestBy (topicGroup tt tidx).length (fun r => r.weight)
              (topicGroup tt tidx)).map (fun r => (r.term,
                (f r + estCount r.weight (dominantCountYear m tidx y),
                 g r + r.weight))) from by
          rw [tyStep, if_neg h1, if_neg h2]
          exact h3]
        rw [ih (fun r => f r + estCount r.weight (dominantCountYear m tidx y))
          (fun r => g r + r.weight)]
        apply List.map_congr_left
        intro r _
        simp [yearContrib, wContrib, h1, h2, add_assoc]

theorem foldl_tyStep_from_empty (m : DocTopics) (tt : List TermRow) (tidx : ℤ)
    (hdist2 : (nlargestBy (topicGroup tt tidx).length (fun r => r.weight)
      (topicGroup tt tidx)).Pairwise (fun a b => a.term ≠ b.term)) (ys : List ℤ) :
    ys.foldl (tyStep m tt tidx) [] = []
    ∨ ys.foldl (tyStep m tt tidx) []
      = (nlargestBy (topicGroup tt tidx).length (fun r => r.weight)
        (topicGroup tt tidx)).map (fun r => (r.term,
          ((ys.map (yearContrib m tidx r.weight)).sum,
           (ys.map (wContrib m tidx r.weight)).sum))) := by
  induction ys with
  | nil => exact Or.inl rfl
  | cons y rest ih =>
    rw [List.foldl_cons]
    by_cases h1 : m.docs.filter (fun d => d.year = y) = []
    · rw [show tyStep m tt tidx [] y = [] from by rw [tyStep, if_pos h1]]
      rcases ih with h | h
      · exact Or.inl h
      · right
        rw [h]
        apply List.map_congr_left
        intro r _
        simp [yearContrib, wContrib, h1]
    · by_cases h2 : dominantCountYear m tidx y = 0
      · rw [show tyStep m tt tidx [] y = [] from by rw [tyStep, if_neg h1, if_pos h2]]
        rcases ih with h | h
        · exact Or.inl h
        · right
          rw [h]
          apply List.map_congr_left
          intro r _
          simp [yearContrib, wContrib, h1, h2]
      · right
        have habs := foldl_accumStep (dominantCountYear m tidx y)
          (nlargestBy (topicGroup tt tidx).length (fun r => r.weight)
            (topicGroup tt tidx)) []
          (fun r _ => rfl) hdist2
        rw [List.nil_append] at habs
        rw [show tyStep m tt tidx [] y
            = (nlargestBy (topicGroup tt tidx).length (fun r => r.weight)
              (topicGroup tt tidx)).map (fun r =>
                (r.term, (estCount r.weight (dominantCountYear m tidx y),
                  r.weight))) from by
          rw [tyStep, if_neg h1, if_neg h2]
          exact habs]
        rw [foldl_tyStep_S m tt tidx hdist2 rest
          (fun r => estCount r.weight (dominantCountYear m tidx y))
          (fun r => r.weight)]
        apply List.map_congr_left
        intro r _
        simp [yearContrib, wContrib, h1, h2]

theorem foldl_topicStep_flatten (tt : List TermRow) (dcOf : ℕ → ℕ) :
    ∀ (ts : List ℕ) (acc : List (String × (ℤ × ℚ))),
    (∀ t ∈ ts, ∀ r ∈ topicGroup tt (t : ℤ), alookup r.term acc = none) →
    (∀ t ∈ ts, (topicGroup tt (t : ℤ)).Pairwise (fun a b => a.term ≠ b.term)) →
    ts.Pairwise (fun (a b : ℕ) => ∀ r ∈ topicGroup tt (a : ℤ),
      ∀ r2 ∈ topicGroup tt (b : ℤ), r.term ≠ r2.term) →
    ts.foldl (topicStep tt dcOf) acc
      = acc ++ (ts.map (fun t : ℕ =>
          if topicGroup tt (t : ℤ) = [] then []
          else if dcOf t = 0 then []
          else (nlargestBy 50 (fun r => r.weight) (topicGroup tt (t : ℤ))).map
            (fun r => (r.term, (estCount r.weight (dcOf t), r.weight))))).flatten := by
  intro ts
  induction ts with
  | nil => intro acc _ _ _; simp
  | cons t rest ih =>
    intro acc hfresh hintra hcross
    rw [List.foldl_cons, List.map_cons, List.flatten_cons]
    by_cases hg : topicGroup tt (t : ℤ) = []
    · rw [show topicStep tt dcOf acc t = acc from by rw [topicStep, if_pos hg]]
      rw [ih acc (fun t2 h2 => hfresh t2 (List.mem_cons_of_mem _ h2))
        (fun t2 h2 => hintra t2 (List.mem_cons_of_mem _ h2))
        (List.pairwise_cons.mp hcross).2]
      rw [if_pos hg]
      simp
    · by_cases hdc : dcOf t = 0
      · rw [show topicStep tt dcOf acc t = acc from by
          rw [topicStep, if_neg hg, if_pos hdc]]
        rw [ih acc (fun t2 h2 => hfresh t2 (List.mem_cons_of_mem _ h2))
          (fun t2 h2 => hintra t2 (List.mem_cons_of_mem _ h2))
          (List.pairwise_cons.mp hcross).2]
        rw [if_neg hg, if_pos hdc]
        simp
      · have hstep : topicStep tt dcOf acc t
            = acc ++ (nlargestBy 50 (fun r => r.weight) (topicGroup tt (t : ℤ))).map
              (fun r => (r.term, (estCount r.weight (dcOf t), r.weight))) := by
          rw [topicStep, if_neg hg, if_neg hdc]
          exact foldl_accumStep (dcOf t) _ acc
            (fun r hr => hfresh t (List.mem_cons_self _ _) r (mem_of_mem_nlargestBy hr))
            (pairwise_nlargestBy (fun _ _ h => h.symm)
              (hintra t (List.mem_cons_self _ _)))
        rw [hstep]
        rw [ih (acc ++ (nlargestBy 50 (fun r => r.weight)
            (topicGroup tt (t : ℤ))).map
            (fun r => (r.term, (estCount r.weight (dcOf t), r.weight)))) ?_
          (fun t2 h2 => hintra t2 (List.mem_cons_of_mem _ h2))
          (List.pairwise_cons.mp hcross).2]
        · rw [if_neg hg, if_neg hdc, List.append_assoc]
        · intro t2 h2 r2 hr2
          rw [alookup_append, hfresh t2 (List.mem_cons_of_mem _ h2) r2 hr2]
          exact alookup_map_terms_none r2.term _ _
            (fun r hr => (List.pairwise_cons.mp hcross).1 t2 h2 r
              (mem_of_mem_nlargestBy hr) r2 hr2)

theorem allTopics_keyword_spec (tt : List TermRow) (dcOf : ℕ → ℕ)
    (hne : ∀ r ∈ tt, r.term ≠ "")
    (hglobal : tt.Pairwise (fun a b => lowerStr a.term ≠ lowerStr b.term)) :
    ∀ kw ∈ rankKeywords (mergeCaseInsensitive
      (((List.range 15).foldl (topicStep tt dcOf) []).map
        (fun p => ({ term := p.1, count := p.2.1, weight := p.2.2 } : KW)))),
      ∃ t : ℕ, t < 15 ∧ ∃ r ∈ tt, r.topic_id = (t : ℤ) ∧ r.term = kw.term ∧
        kw.count = estCount r.weight (dcOf t) := by
  intro kw hkw
  have hintra : ∀ t ∈ List.range 15,
      (topicGroup tt (t : ℤ)).Pairwise (fun a b => a.term ≠ b.term) := by
    intro t _
    exact (List.Pairwise.sublist (List.filter_sublist tt) hglobal).imp
      (fun h e => h (by rw [e]))
  have hlowgrp : ∀ tid : ℤ,
      (topicGroup tt tid).Pairwise (fun a b => lowerStr a.term ≠ lowerStr b.term) :=
    fun tid => List.Pairwise.sublist (List.filter_sublist tt) hglobal
  have hcrossLow : (List.range 15).Pairwise (fun (a b : ℕ) =>
      ∀ r ∈ topicGroup tt (a : ℤ), ∀ r2 ∈ topicGroup tt (b : ℤ),
        lowerStr r.term ≠ lowerStr r2.term) := by
    refine (List.pairwise_lt_range 15).imp ?_
    intro a b hab r hr r2 hr2
    have ha : r.topic_id = (a : ℤ) := by simpa using (List.mem_filter.mp hr).2
    have hb2 : r2.topic_id = (b : ℤ) := by simpa using (List.mem_filter.mp hr2).2
    have hrne : r ≠ r2 := by
      intro e
      rw [e] at ha
      have hcast : (a : ℤ) = (b : ℤ) := ha.symm.trans hb2
      have : a = b := by exact_mod_cast hcast
      omega
    exact pairwise_rel_of_ne (fun h e => h e.symm) hglobal
      (List.mem_of_mem_filter hr) (List.mem_of_mem_filter hr2) hrne
  have hcross : (List.range 15).Pairwise (fun (a b : ℕ) =>
      ∀ r ∈ topicGroup tt (a : ℤ), ∀ r2 ∈ topicGroup tt (b : ℤ),
        r.term ≠ r2.term) :=
    hcrossLow.imp (fun h r hr r2 hr2 e => h r hr r2 hr2 (by rw [e]))
  rw [foldl_topicStep_flatten tt dcOf (List.range 15) []
    (fun t _ r _ => rfl) hintra hcross, List.nil_append] at hkw
  have hchunk : ∀ t : ℕ, ∀ x ∈ (if topicGroup tt (t : ℤ) = [] then []
      else if dcOf t = 0 then []
      else (nlargestBy 50 (fun r => r.weight) (topicGroup tt (t : ℤ))).map
        (fun r => (r.term, (estCount r.weight (dcOf t), r.weight))) :
        List (String × (ℤ × ℚ))),
      ∃ r ∈ topicGroup tt (t : ℤ),
        x = (r.term, (estCount r.weight (dcOf t), r.weight)) := by
    intro t x hx
    by_cases hg : topicGroup tt (t : ℤ) = []
    · rw [if_pos hg] at hx
      exact absurd hx (List.not_mem_nil _)
    · rw [if_neg hg] at hx
      by_cases hdc : dcOf t = 0
      · rw [if_pos hdc] at hx
        exact absurd hx (List.not_mem_nil _)
      · rw [if_neg hdc] at hx
        rcases List.mem_map.mp hx with ⟨r, hr, rfl⟩
        exact ⟨r, mem_of_mem_nlargestBy hr, rfl⟩
  have hchar : ∀ p ∈ ((List.range 15).map (fun t : ℕ =>
      if topicGroup tt (t : ℤ) = [] then []
      else if dcOf t = 0 then []
      else (nlargestBy 50 (fun r => r.weight) (topicGroup tt (t : ℤ))).map
        (fun r => (r.term, (estCount r.weight (dcOf t), r.weight))))).flatten,
      ∃ t : ℕ, t < 15 ∧ ∃ r ∈ topicGroup tt (t : ℤ),
        p = (r.term, (estCount r.weight (dcOf t), r.weight)) := by
    intro p hp
    rcases List.mem_flatten.mp hp with ⟨chunk, hc, hpc⟩
    rcases List.mem_map.mp hc with ⟨t, ht, rfl⟩
    rcases hchunk t p hpc with ⟨r, hr, rfl⟩
    exact ⟨t, List.mem_range.mp ht, r, hr, rfl⟩
  have hpwflat : (((List.range 15).map (fun t : ℕ =>
      if topicGroup tt (t : ℤ) = [] then []
      else if dcOf t = 0 then []
      else (nlargestBy 50 (fun r => r.weight) (topicGroup tt (t : ℤ))).map
        (fun r => (r.term, (estCount r.weight (dcOf t), r.weight))))).flatten).Pairwise
      (fun p q : String × (ℤ × ℚ) => lowerStr p.1 ≠ lowerStr q.1) := by
    rw [List.pairwise_flatten]
    constructor
    · intro chunk hc
      rcases List.mem_map.mp hc with ⟨t, _, rfl⟩
      by_cases hg : topicGroup tt (t : ℤ) = []
      · rw [if_pos hg]
        exact List.Pairwise.nil
      · rw [if_neg hg]
        by_cases hdc : dcOf t = 0
        · rw [if_pos hdc]
          exact List.Pairwise.nil
        · rw [if_neg hdc]
          rw [List.pairwise_map]
          exact pairwise_nlargestBy (fun _ _ h => h.symm) (hlowgrp (t : ℤ))
    · rw [List.pairwise_map]
      refine hcrossLow.imp ?_
      intro a b h x hx y hy
      rcases hchunk a x hx with ⟨r, hr, rfl⟩
      rcases hchunk b y hy with ⟨r2, hr2, rfl⟩
      exact h r hr r2 hr2
  rw [mergeCaseInsensitive_of_distinct _ ?_ ?_] at hkw
  · have hkw2 := mem_of_mem_rankKeywords hkw
    rcases List.mem_map.mp hkw2 with ⟨p, hpacc, rfl⟩
    rcases hchar p hpacc with ⟨t, ht15, r, hrg, rfl⟩
    have hrtt := List.mem_filter.mp hrg
    exact ⟨t, ht15, r, hrtt.1, by simpa using hrtt.2, rfl, rfl⟩
  · intro k hk
    rcases List.mem_map.mp hk with ⟨p, hpacc, rfl⟩
    rcases hchar p hpacc with ⟨t, _, r, hrg, rfl⟩
    exact hne r (List.mem_of_mem_filter hrg)
  · rw [List.pairwise_map]
    exact hpwflat

/-- C3 (amended): in every keyword-accumulation path, a term's contributed
estimated count for a year equals `int(term_weight * dominant_doc_count * 10)`
truncated toward zero (Python `int()`), not rounded to nearest (for tables
without case-insensitive duplicate terms). Conjunct 1: every output entry of
the one-topic/one-year keyword query carries exactly the truncated value for
its year. Conjunct 2: every keyword of the topic-all-years detail carries the
sum over all years of the per-year truncated contributions (0 for years with
no dominant documents). Conjunct 3: the same per-year sum for the
one-topic/all-years keyword query. Conjuncts 4 and 5: every entry of the
all-topics queries (all years resp. one year) carries the truncated value for
its topic's dominant count, computed with the columns truncated to the first
15. -/
theorem claim3_est_counts (dt : Option DocTopics) (tt : List TermRow)
    (topic1 : ℕ) (year : ℤ)
    (hne : ∀ r ∈ tt, r.term ≠ "")
    (hglobal : tt.Pairwise (fun a b => lowerStr a.term ≠ lowerStr b.term)) :
    (∀ kw ∈ getKeywordsTopicYear dt tt topic1 year,
      ∃ m, dt = some m ∧ ∃ r ∈ tt, r.topic_id = (topic1 : ℤ) - 1 ∧ r.term = kw.term ∧
        kw.count = pyTrunc (r.weight
          * (dominantCountYear m ((topic1 : ℤ) - 1) year : ℚ) * 10))
    ∧ (∀ kw ∈ getTopicAllYearsKeywords dt tt topic1,
      ∃ m, dt = some m ∧ ∃ r ∈ tt, r.topic_id = (topic1 : ℤ) - 1 ∧ r.term = kw.term ∧
        kw.count = ((yearsOf m).map
          (fun y => yearContrib m ((topic1 : ℤ) - 1) r.weight y)).sum)
    ∧ (∀ kw ∈ getKeywordsTopicAllYears dt tt topic1,
      ∃ m, dt = some m ∧ ∃ r ∈ tt, r.topic_id = (topic1 : ℤ) - 1 ∧ r.term = kw.term ∧
        kw.count = ((yearsOf m).map
          (fun y => yearContrib m ((topic1 : ℤ) - 1) r.weight y)).sum)
    ∧ (∀ kw ∈ getKeywordsAllTopicsAllYears dt tt,
      ∃ m, dt = some m ∧ ∃ t : ℕ, t < 15 ∧ ∃ r ∈ tt, r.topic_id = (t : ℤ)
        ∧ r.term = kw.term
        ∧ kw.count = pyTrunc (r.weight * (dominantCount15 m t : ℚ) * 10))
    ∧ (∀ kw ∈ getKeywordsAllTopicsYear dt tt year,
      ∃ m, dt = some m ∧ ∃ t : ℕ, t < 15 ∧ ∃ r ∈ tt, r.topic_id = (t : ℤ)
        ∧ r.term = kw.term
        ∧ kw.count = pyTrunc (r.weight * (dominantCount15Year m t year : ℚ) * 10)) := by
  have hdist : (topicGroup tt ((topic1 : ℤ) - 1)).Pairwise
      (fun a b => lowerStr a.term ≠ lowerStr b.term) :=
    List.Pairwise.sublist (List.filter_sublist tt) hglobal
  refine ⟨?_, ?_, ?_, ?_, ?_⟩
  · intro kw hkw
    cases dt with
    | none => simp [getKeywordsTopicYear] at hkw
    | some m =>
      refine ⟨m, rfl, ?_⟩
      simp only [getKeywordsTopicYear] at hkw
      by_cases hyd : m.docs.filter (fun d => d.year = year) = []
      · rw [if_pos hyd] at hkw
        exact absurd hkw (List.not_mem_nil _)
      rw [if_neg hyd] at hkw
      by_cases hgrp : topicGroup tt ((topic1 : ℤ) - 1) = []
      · rw [if_pos hgrp] at hkw
        exact absurd hkw (List.not_mem_nil _)
      rw [if_neg hgrp] at hkw
      by_cases hK : m.K = 0
      · rw [if_pos hK] at hkw
        exact absurd hkw (List.not_mem_nil _)
      rw [if_neg hK] at hkw
      by_cases hdc : dominantCountYear m ((topic1 : ℤ) - 1) year = 0
      · rw [if_pos hdc] at hkw
        exact absurd hkw (List.not_mem_nil _)
      rw [if_neg hdc] at hkw
      have hgsdist : (nlargestBy (topicGroup tt ((topic1 : ℤ) - 1)).length
          (fun r => r.weight) (topicGroup tt ((topic1 : ℤ) - 1))).Pairwise
          (fun a b => lowerStr a.term ≠ lowerStr b.term) :=
        pairwise_nlargestBy (fun _ _ h => h.symm) hdist
      have hgsne : ∀ r ∈ nlargestBy (topicGroup tt ((topic1 : ℤ) - 1)).length
          (fun r => r.weight) (topicGroup tt ((topic1 : ℤ) - 1)), r.term ≠ "" :=
        fun r hr => hne r (List.mem_of_mem_filter (mem_of_mem_nlargestBy hr))
      have htermdist : (nlargestBy (topicGroup tt ((topic1 : ℤ) - 1)).length
          (fun r => r.weight) (topicGroup tt ((topic1 : ℤ) - 1))).Pairwise
          (fun a b => a.term ≠ b.term) :=
        hgsdist.imp (fun h heq => h (by rw [heq]))
      rw [foldl_accumStep _ _ [] (fun r _ => rfl) htermdist, List.nil_append,
        List.map_map] at hkw
      rw [mergeCaseInsensitive_of_distinct _ ?_ ?_] at hkw
      · have hkw2 := mem_of_mem_rankKeywords hkw
        rcases List.mem_map.mp hkw2 with ⟨r, hrgs, rfl⟩
        have hrgrp := mem_of_mem_nlargestBy hrgs
        have hrtt := List.mem_filter.mp hrgrp
        exact ⟨r, hrtt.1, by simpa using hrtt.2, rfl, rfl⟩
      · intro k hk
        rcases List.mem_map.mp hk with ⟨r, hrgs, rfl⟩
        exact hgsne r hrgs
      · rw [List.pairwise_map]
        exact hgsdist.imp (fun h => h)
  · intro kw hkw
    cases dt with
    | none => simp [getTopicAllYearsKeywords] at hkw
    | some m =>
      refine ⟨m, rfl, ?_⟩
      simp only [getTopicAllYearsKeywords] at hkw
      by_cases hK : m.K = 0
      · rw [if_pos hK] at hkw
        exact absurd hkw (List.not_mem_nil _)
      rw [if_neg hK] at hkw
      by_cases hgrp : topicGroup tt ((topic1 : ℤ) - 1) = []
      · rw [accumAllYears,
          foldl_yearStep_group_empty m tt ((topic1 : ℤ) - 1) hgrp (yearsOf m) []] at hkw
        simp [List.insertionSort] at hkw
      · have hdist2 : (nlargestBy 30 (fun r => r.weight)
            (topicGroup tt ((topic1 : ℤ) - 1))).Pairwise
            (fun a b => a.term ≠ b.term) :=
          (pairwise_nlargestBy (fun _ _ h => h.symm) hdist).imp
            (fun h heq => h (by rw [heq]))
        rcases foldl_yearStep_from_empty m tt ((topic1 : ℤ) - 1) hgrp hdist2
          (yearsOf m) with hacc | hacc
        · rw [accumAllYears, hacc] at hkw
          simp [List.insertionSort] at hkw
        · rw [accumAllYears, hacc, List.map_map] at hkw
          have hkw2 := (List.perm_insertionSort _ _).mem_iff.mp
            (List.mem_of_mem_take hkw)
          rcases List.mem_map.mp hkw2 with ⟨r, hrgs, rfl⟩
          have hrtt := List.mem_filter.mp (mem_of_mem_nlargestBy hrgs)
          exact ⟨r, hrtt.1, by simpa using hrtt.2, rfl, rfl⟩
  · intro kw hkw
    cases dt with
    | none => simp [getKeywordsTopicAllYears] at hkw
    | some m =>
      refine ⟨m, rfl, ?_⟩
      simp only [getKeywordsTopicAllYears] at hkw
      by_cases hgrp : topicGroup tt ((topic1 : ℤ) - 1) = []
      · rw [if_pos hgrp] at hkw
        exact absurd hkw (List.not_mem_nil _)
      rw [if_neg hgrp] at hkw
      by_cases hK : m.K = 0
      · rw [if_pos hK] at hkw
        exact absurd hkw (List.not_mem_nil _)
      rw [if_neg hK] at hkw
      by_cases htot : m.docs.countP
          (fun d => (argmaxIdx d.probs : ℤ) = (topic1 : ℤ) - 1) = 0
      · rw [if_pos htot] at hkw
        exact absurd hkw (List.not_mem_nil _)
      rw [if_neg htot] at hkw
      have hgsdist : (nlargestBy (topicGroup tt ((topic1 : ℤ) - 1)).length
          (fun r => r.weight) (topicGroup tt ((topic1 : ℤ) - 1))).Pairwise
          (fun a b => lowerStr a.term ≠ lowerStr b.term) :=
        pairwise_nlargestBy (fun _ _ h => h.symm) hdist
      have htermdist : (nlargestBy (topicGroup tt ((topic1 : ℤ) - 1)).length
          (fun r => r.weight) (topicGroup tt ((topic1 : ℤ) - 1))).Pairwise
          (fun a b => a.term ≠ b.term) :=
        hgsdist.imp (fun h heq => h (by rw [heq]))
      rcases foldl_tyStep_from_empty m tt ((topic1 : ℤ) - 1) htermdist
        (yearsOf m) with hacc | hacc
      · rw [hacc] at hkw
        simp [rankKeywords, mergeCaseInsensitive, List.insertionSort] at hkw
      · rw [hacc, List.map_map] at hkw
        rw [mergeCaseInsensitive_of_distinct _ ?_ ?_] at hkw
        · have hkw2 := mem_of_mem_rankKeywords hkw
          rcases List.mem_map.mp hkw2 with ⟨r, hrgs, rfl⟩
          have hrtt := List.mem_filter.mp (mem_of_mem_nlargestBy hrgs)
          exact ⟨r, hrtt.1, by simpa using hrtt.2, rfl, rfl⟩
        · intro k hk
          rcases List.mem_map.mp hk with ⟨r, hrgs, rfl⟩
          exact hne r (List.mem_of_mem_filter (mem_of_mem_nlargestBy hrgs))
        · rw [List.pairwise_map]
          exact hgsdist.imp (fun h => h)
  · intro kw hkw
    cases dt with
    | none => simp [getKeywordsAllTopicsAllYears] at hkw
    | some m =>
      refine ⟨m, rfl, ?_⟩
      simp only [getKeywordsAllTopicsAllYears] at hkw
      by_cases hK : m.K = 0
      · rw [if_pos hK] at hkw
        exact absurd hkw (List.not_mem_nil _)
      rw [if_neg hK] at hkw
      exact allTopics_keyword_spec tt (dominantCount15 m) hne hglobal kw hkw
  · intro kw hkw
    cases dt with
    | none => simp [getKeywordsAllTopicsYear] at hkw
    | some m =>
      refine ⟨m, rfl, ?_⟩
      simp only [getKeywordsAllTopicsYear] at hkw
      by_cases hyd : m.docs.filter (fun d => d.year = year) = []
      · rw [if_pos hyd] at hkw
        exact absurd hkw (List.not_mem_nil _)
      rw [if_neg hyd] at hkw
      by_cases hK : m.K = 0
      · rw [if_pos hK] at hkw
        exact absurd hkw (List.not_mem_nil _)
      rw [if_neg hK] at hkw
      exact allTopics_keyword_spec tt (fun t => dominantCount15Year m t year)
        hne hglobal kw hkw

/-- C3 counterexample: with one dominant document and term weight 0.19 the
estimated count stored is `int(0.19 * 1 * 10) = 1`, while the claimed
`round(0.19 * 1 * 10) = 2`. -/
theorem claim3_counterexample :
    getKeywordsTopicYear (some exDT3) exTT3 1 2020 = [⟨"ai", 1, 19/100⟩]
    ∧ dominantCountYear exDT3 0 2020 = 1
    ∧ pyRound ((19 : ℚ)/100 * 1 * 10) = 2
    ∧ ((1 : ℤ) ≠ 2) := by
  have hm : argmaxIdx [(1 : ℚ)] = 0 := by norm_num [argmaxIdx]
  have hne : ¬ ("ai" = "") := by decide
  refine ⟨?_, ?_, ?_, by decide⟩
  · simp only [getKeywordsTopicYear, exDT3, exTT3]
    norm_num [List.filter, dominantCountYear, List.countP_cons, List.countP_nil,
      hm, topicGroup, nlargestBy, List.insertionSort, List.orderedInsert,
      accumStep, alookup, estCount, pyTrunc, mergeCaseInsensitive, mergeStep,
      hne, rankKeywords, List.take]
  · simp only [dominantCountYear, exDT3]
    norm_num [List.filter, List.countP_cons, List.countP_nil, hm]
  · rw [pyRound]
    norm_num [Int.floor_eq_iff]

/-- Witness for C3 at the concrete one-term table. -/
theorem claim3_witness :
    (∀ r ∈ exTT3, r.term ≠ "")
    ∧ ∀ kw ∈ getKeywordsTopicYear (some exDT3) exTT3 1 2020,
        ∃ m, some exDT3 = some m ∧ ∃ r ∈ exTT3, r.topic_id = (1 : ℤ) - 1
          ∧ r.term = kw.term
          ∧ kw.count = pyTrunc (r.weight
              * (dominantCountYear m ((1 : ℤ) - 1) 2020 : ℚ) * 10) :=
  ⟨by decide,
    (claim3_est_counts (some exDT3) exTT3 1 2020 (by decide) (by decide)).1⟩

/-- C6 (amended): merging two entries whose terms differ only in letter case
yields a single entry whose count is the sum of the two counts and whose weight
is the sum of the two weights; the displayed casing, however, is the second
entry's casing whenever the second count is positive (the first entry's count
is never recorded as the running `_original_count`, which starts at 0), not the
most-frequently-seen casing. All four keyword-ranking variants call this same
merge. -/
theorem claim6_merge_pair (t1 t2 : String) (c1 c2 : ℤ) (w1 w2 : ℚ)
    (h1 : t1 ≠ "") (h2 : t2 ≠ "") (hl : lowerStr t1 = lowerStr t2) :
    mergeCaseInsensitive [⟨t1, c1, w1⟩, ⟨t2, c2, w2⟩]
      = [⟨if 0 < c2 then t2 else t1, c1 + c2, w1 + w2⟩] := by
  rw [mergeCaseInsensitive, List.foldl_cons, List.foldl_cons, List.foldl_nil]
  have hstep1 : mergeStep [] ⟨t1, c1, w1⟩ = [(lowerStr t1,
      ({ term := t1, count := c1, weight := w1, orig := 0 } : MEntry))] := by
    rw [mergeStep, if_neg h1]
    rfl
  rw [hstep1, mergeStep, if_neg h2]
  by_cases hc : 0 < c2
  · simp [alookup, hl, aupdate, hc]
  · simp [alookup, hl, aupdate, hc, not_lt.mp hc]

/-- C6 counterexample: merging `("AI", count 100)` with `("ai", count 1)` keeps
the sums but displays the casing `"ai"` of the less frequent second entry, not
the most-frequently-seen casing `"AI"`. -/
theorem claim6_counterexample :
    mergeCaseInsensitive [⟨"AI", 100, 1⟩, ⟨"ai", 1, 1⟩] = [⟨"ai", 101, 2⟩]
    ∧ "ai" ≠ "AI" := by
  have hll : lowerStr "AI" = lowerStr "ai" := by decide
  have ha : ¬ ("AI" = "") := by decide
  have hb : ¬ ("ai" = "") := by decide
  refine ⟨?_, by decide⟩
  rw [mergeCaseInsensitive, List.foldl_cons, List.foldl_cons, List.foldl_nil]
  have hstep1 : mergeStep [] ⟨"AI", 100, 1⟩ = [(lowerStr "AI",
      ({ term := "AI", count := 100, weight := 1, orig := 0 } : MEntry))] := by
    rw [mergeStep, if_neg ha]
    rfl
  rw [hstep1, mergeStep, if_neg hb]
  norm_num [alookup, hll, aupdate]

/-- Witness for C6 at concrete case-variant entries. -/
theorem claim6_witness :
    mergeCaseInsensitive [⟨"AI", 2, 1⟩, ⟨"ai", 3, 1⟩]
      = [⟨if (0 : ℤ) < 3 then "ai" else "AI", 2 + 3, 1 + 1⟩] :=
  claim6_merge_pair "AI" "ai" 2 3 1 1 (by decide) (by decide) (by decide)

/-! ## Claim C7 -/

/-- C7 counterexample: for the spec's example table (topic 0 terms ai/model/data)
with no label override on disk, `get_topic(0)` returns the hard-coded custom
label for topic 0, not the top-3 default join `"ai / model / data"` — the
custom labels overwrite topics 0..14 unconditionally. -/
theorem claim7_counterexample :
    (getTopic exTT7 (loadLabels emptyLabels) 0).map (fun t => t.label)
      = some "人工智能基础 / AI Fundamentals"
    ∧ "人工智能基础 / AI Fundamentals" ≠ "ai / model / data" := by
  have hlab : loadLabels emptyLabels 0 = some "人工智能基础 / AI Fundamentals" := by
    rfl
  refine ⟨?_, by decide⟩
  simp only [getTopic, getTopics, topicIds, topicGroup, exTT7, dedupFirst]
  norm_num [dedupFirstAux, sortAsc, List.insertionSort, List.orderedInsert,
    nlargestBy, List.filter, List.take, List.find?, hlab]

/-- C7 (amended): the top-3-joined default label applies only to topic ids with
no hard-coded custom label (ids outside 0..14): with the example terms stored
under topic id 15 and no override, `get_topic(15)` returns the label
`"ai / model / data"`. -/
theorem claim7_amended :
    (getTopic exTT7b (loadLabels emptyLabels) 15).map (fun t => t.label)
      = some "ai / model / data" := by
  have hlab : loadLabels emptyLabels 15 = none := by rfl
  have hjoin : String.intercalate " / " ["ai", "model", "data"]
      = "ai / model / data" := by decide
  simp only [getTopic, getTopics, topicIds, topicGroup, exTT7b, dedupFirst]
  norm_num [dedupFirstAux, sortAsc, List.insertionSort, List.orderedInsert,
    nlargestBy, List.filter, List.take, List.find?, hlab, defaultLabel, hjoin]

/-! ## Claim C8 -/

theorem mem_selectedMatched (m : DocTopics) (main : List MainRow)
    (papers : Option (List String)) (tidx : ℕ) (r : MainRow)
    (h : r ∈ selectedMatched m main papers tidx) :
    r ∈ main ∧ r.articleId ∈ (top100Docs m tidx).map (fun d => d.articleId) := by
  have hdirect : r ∈ main.filter (fun r2 =>
      r2.articleId ∈ (top100Docs m tidx).map (fun d => d.articleId)) →
      r ∈ main ∧ r.articleId ∈ (top100Docs m tidx).map (fun d => d.articleId) := by
    intro hr
    have := List.mem_filter.mp hr
    exact ⟨this.1, by simpa using this.2⟩
  cases papers with
  | none =>
    simp only [selectedMatched] at h
    rw [if_pos trivial] at h
    exact hdirect h
  | some ps =>
    simp only [selectedMatched] at h
    by_cases hpm : ps.filter (fun a =>
        a ∈ (top100Docs m tidx).map (fun d => d.articleId)) = []
    · rw [if_pos hpm, if_pos rfl] at h
      exact hdirect h
    · rw [if_neg hpm] at h
      by_cases hmf : main.filter (fun r2 => r2.articleId ∈ ps.filter (fun a =>
          a ∈ (top100Docs m tidx).map (fun d => d.articleId))) = []
      · rw [if_pos hmf] at h
        exact hdirect h
      · rw [if_neg hmf] at h
        have h1 := List.mem_filter.mp h
        have h2 : r.articleId ∈ ps.filter (fun a =>
            a ∈ (top100Docs m tidx).map (fun d => d.articleId)) := by
          simpa using h1.2
        have h3 := List.mem_filter.mp h2
        exact ⟨h1.1, by simpa using h3.2⟩

theorem mostCommon_length_le (n : ℕ) (l : List String) :
    (mostCommon n l).length ≤ n := by
  simp only [mostCommon, List.length_map, List.length_take]
  exact min_le_left _ _

theorem mem_mostCommon {n : ℕ} {l : List String} {s : String}
    (h : s ∈ mostCommon n l) : s ∈ l := by
  rw [mostCommon] at h
  rcases List.mem_map.mp h with ⟨p, hp, rfl⟩
  have hp2 := (List.perm_insertionSort _ _).mem_iff.mp (List.mem_of_mem_take hp)
  rcases List.mem_map.mp hp2 with ⟨s2, hs2, heq⟩
  rw [← heq]
  exact (mem_dedupFirst s2 l).mp hs2

theorem mostCommon_counts_sorted (n : ℕ) (l : List String) :
    (mostCommon n l).Pairwise (fun a b => l.count b ≤ l.count a) := by
  haveI : IsTotal (String × ℕ) (fun a b => b.2 ≤ a.2) := ⟨fun a b => le_total b.2 a.2⟩
  haveI : IsTrans (String × ℕ) (fun a b => b.2 ≤ a.2) :=
    ⟨fun _ _ _ hab hbc => le_trans hbc hab⟩
  rw [mostCommon, List.pairwise_map]
  have hsorted : (List.insertionSort (fun a b : String × ℕ => b.2 ≤ a.2)
      ((dedupFirst l).map (fun s => (s, l.count s)))).Pairwise
      (fun a b : String × ℕ => b.2 ≤ a.2) :=
    List.sorted_insertionSort _ _
  have htake := List.Pairwise.sublist (List.take_sublist n _) hsorted
  have hmem2 : ∀ p ∈ (List.insertionSort (fun a b : String × ℕ => b.2 ≤ a.2)
      ((dedupFirst l).map (fun s => (s, l.count s)))).take n, p.2 = l.count p.1 := by
    intro p hp
    have := (List.perm_insertionSort _ _).mem_iff.mp (List.mem_of_mem_take hp)
    rcases List.mem_map.mp this with ⟨s, _, heq⟩
    rw [← heq]
  exact List.Pairwise.imp_of_mem
    (fun ha hb hr => by rw [← hmem2 _ ha, ← hmem2 _ hb]; exact hr) htake

theorem mostCommon_nodup (n : ℕ) (l : List String) : (mostCommon n l).Nodup := by
  have h2 : ((dedupFirst l).map (fun s : String => (s, l.count s))).map
      (fun p : String × ℕ => p.1) = dedupFirst l := by
    rw [List.map_map]
    exact List.map_id _
  have hperm := (List.perm_insertionSort (fun a b : String × ℕ => b.2 ≤ a.2)
    ((dedupFirst l).map (fun s => (s, l.count s)))).map (fun p : String × ℕ => p.1)
  rw [h2] at hperm
  have hnodup := hperm.nodup_iff.mpr (nodup_dedupFirst l)
  rw [mostCommon]
  exact List.Sublist.nodup (List.Sublist.map _ (List.take_sublist n _)) hnodup

theorem mostCommon_length (n : ℕ) (l : List String) :
    (mostCommon n l).length = min n (dedupFirst l).length := by
  rw [mostCommon, List.length_map, List.length_take,
    (List.perm_insertionSort (fun a b : String × ℕ => b.2 ≤ a.2)
      ((dedupFirst l).map (fun s => (s, l.count s)))).length_eq,
    List.length_map]

theorem mostCommon_is_top (n : ℕ) (l : List String) :
    ∀ a ∈ mostCommon n l, ∀ b ∈ l, b ∉ mostCommon n l →
      l.count b ≤ l.count a := by
  haveI : IsTotal (String × ℕ) (fun a b => b.2 ≤ a.2) := ⟨fun a b => le_total b.2 a.2⟩
  haveI : IsTrans (String × ℕ) (fun a b => b.2 ≤ a.2) :=
    ⟨fun _ _ _ hab hbc => le_trans hbc hab⟩
  intro a ha b hb hbn
  rw [mostCommon] at ha
  rcases List.mem_map.mp ha with ⟨p, hp, rfl⟩
  have hpp := (List.perm_insertionSort (fun a b : String × ℕ => b.2 ≤ a.2)
    ((dedupFirst l).map (fun s => (s, l.count s)))).mem_iff.mp
    (List.mem_of_mem_take hp)
  rcases List.mem_map.mp hpp with ⟨s, _, heq⟩
  have hbd : (b, l.count b) ∈ (dedupFirst l).map (fun s : String => (s, l.count s)) :=
    List.mem_map.mpr ⟨b, (mem_dedupFirst b l).mpr hb, rfl⟩
  have hbs := (List.perm_insertionSort (fun a b : String × ℕ => b.2 ≤ a.2)
    ((dedupFirst l).map (fun s => (s, l.count s)))).mem_iff.mpr hbd
  have hbtake : (b, l.count b) ∉ (List.insertionSort
      (fun a b : String × ℕ => b.2 ≤ a.2)
      ((dedupFirst l).map (fun s => (s, l.count s)))).take n := by
    intro hmem
    apply hbn
    rw [mostCommon]
    exact List.mem_map.mpr ⟨(b, l.count b), hmem, rfl⟩
  have hbdrop : (b, l.count b) ∈ (List.insertionSort
      (fun a b : String × ℕ => b.2 ≤ a.2)
      ((dedupFirst l).map (fun s => (s, l.count s)))).drop n := by
    have h3 := hbs
    rw [← List.take_append_drop n (List.insertionSort
      (fun a b : String × ℕ => b.2 ≤ a.2)
      ((dedupFirst l).map (fun s => (s, l.count s))))] at h3
    rcases List.mem_append.mp h3 with h4 | h4
    · exact absurd h4 hbtake
    · exact h4
  have hsorted : (List.insertionSort (fun a b : String × ℕ => b.2 ≤ a.2)
      ((dedupFirst l).map (fun s => (s, l.count s)))).Pairwise
      (fun a b : String × ℕ => b.2 ≤ a.2) := List.sorted_insertionSort _ _
  have hsplit : ∀ x ∈ (List.insertionSort (fun a b : String × ℕ => b.2 ≤ a.2)
      ((dedupFirst l).map (fun s => (s, l.count s)))).take n,
      ∀ y ∈ (List.insertionSort (fun a b : String × ℕ => b.2 ≤ a.2)
      ((dedupFirst l).map (fun s => (s, l.count s)))).drop n, y.2 ≤ x.2 := by
    have h5 := hsorted
    rw [← List.take_append_drop n (List.insertionSort
      (fun a b : String × ℕ => b.2 ≤ a.2)
      ((dedupFirst l).map (fun s => (s, l.count s))))] at h5
    exact (List.pairwise_append.mp h5).2.2
  have hle := hsplit p hp _ hbdrop
  rw [← heq] at hle ⊢
  simpa using hle

/-- C8: `get_topic_representative_authors` is total (the embedding returns a
list on every input, mirroring the catch-all exception handler): it returns the
empty list when the document-topic matrix or the main author table is missing
(and, by the branch analysis, when the topic or `article_id` column is absent,
no row matches, or no name survives); any returned name belongs to a main-table
row matched to the 100 documents with the highest raw probability for the
topic; at most `top_n` names are returned, ordered by non-increasing frequency
among the collected author names; the names are distinct, a non-empty result
has exactly `min top_n #distinct-names` entries, and every collected name left
out occurs no more often than any returned name — the returned names are the
`top_n` most frequent. -/
theorem claim8_repr_authors (dt : Option DocTopics) (dfMain : Option (List MainRow))
    (dfPapers : Option (List String)) (topic_id : ℤ) (top_n : ℕ) :
    ((dt = none ∨ dfMain = none) →
      getTopicRepresentativeAuthors dt dfMain dfPapers topic_id top_n = [])
    ∧ (getTopicRepresentativeAuthors dt dfMain dfPapers topic_id top_n).length ≤ top_n
    ∧ (∀ name ∈ getTopicRepresentativeAuthors dt dfMain dfPapers topic_id top_n,
        ∃ m main, dt = some m ∧ dfMain = some main ∧ ∃ r ∈ main,
          r.articleId ∈ (top100Docs m topic_id.toNat).map (fun d => d.articleId)
          ∧ name ∈ cleanAuthors r)
    ∧ (∀ m main, dt = some m → dfMain = some main →
        (getTopicRepresentativeAuthors dt dfMain dfPapers topic_id top_n).Pairwise
          (fun a b => (collectedAuthors m main dfPapers topic_id.toNat).count b
            ≤ (collectedAuthors m main dfPapers topic_id.toNat).count a))
    ∧ (getTopicRepresentativeAuthors dt dfMain dfPapers topic_id top_n).Nodup
    ∧ (∀ m main, dt = some m → dfMain = some main →
        ((getTopicRepresentativeAuthors dt dfMain dfPapers topic_id top_n ≠ [] →
          (getTopicRepresentativeAuthors dt dfMain dfPapers topic_id top_n).length
            = min top_n
              (dedupFirst (collectedAuthors m main dfPapers topic_id.toNat)).length)
        ∧ ∀ a ∈ getTopicRepresentativeAuthors dt dfMain dfPapers topic_id top_n,
            ∀ b ∈ collectedAuthors m main dfPapers topic_id.toNat,
              b ∉ getTopicRepresentativeAuthors dt dfMain dfPapers topic_id top_n →
                (collectedAuthors m main dfPapers topic_id.toNat).count b
                  ≤ (collectedAuthors m main dfPapers topic_id.toNat).count a)) := by
  cases dt with
  | none =>
    refine ⟨fun _ => rfl, by simp [getTopicRepresentativeAuthors], ?_, ?_,
      by simp [getTopicRepresentativeAuthors], ?_⟩
    · intro name hname
      cases dfMain <;> simp [getTopicRepresentativeAuthors] at hname
    · intro m main hm _
      cases hm
    · intro m main hm _
      cases hm
  | some m0 =>
    cases dfMain with
    | none =>
      refine ⟨fun _ => rfl, by simp [getTopicRepresentativeAuthors], ?_, ?_,
        by simp [getTopicRepresentativeAuthors], ?_⟩
      · intro name hname
        simp [getTopicRepresentativeAuthors] at hname
      · intro m main _ hmain
        cases hmain
      · intro m main _ hmain
        cases hmain
    | some main0 =>
      have hres : getTopicRepresentativeAuthors (some m0) (some main0) dfPapers
            topic_id top_n = []
          ∨ (getTopicRepresentativeAuthors (some m0) (some main0) dfPapers
              topic_id top_n
            = mostCommon top_n (collectedAuthors m0 main0 dfPapers topic_id.toNat)
            ∧ selectedMatched m0 main0 dfPapers topic_id.toNat ≠ []) := by
        simp only [getTopicRepresentativeAuthors]
        by_cases hidx : 0 ≤ topic_id ∧ topic_id < (m0.K : ℤ)
        · rw [if_pos hidx]
          by_cases hart : m0.hasArticleId = true
          · rw [if_pos hart]
            by_cases hmt : selectedMatched m0 main0 dfPapers topic_id.toNat = []
            · rw [if_pos hmt]
              exact Or.inl rfl
            · rw [if_neg hmt]
              by_cases hau : collectedAuthors m0 main0 dfPapers topic_id.toNat = []
              · rw [if_pos hau]
                exact Or.inl rfl
              · rw [if_neg hau]
                exact Or.inr ⟨rfl, hmt⟩
          · rw [if_neg hart]
            exact Or.inl rfl
        · rw [if_neg hidx]
          exact Or.inl rfl
      rcases hres with hres | ⟨hres, _⟩
      · rw [hres]
        refine ⟨fun _ => rfl, by simp, ?_, ?_, by simp, ?_⟩
        · intro name hname
          cases hname
        · intro m main hm hmain
          cases hm
          cases hmain
          simp
        · intro m main hm hmain
          cases hm
          cases hmain
          refine ⟨fun h => absurd rfl h, ?_⟩
          intro a ha
          cases ha
      · rw [hres]
        refine ⟨?_, mostCommon_length_le _ _, ?_, ?_, mostCommon_nodup _ _, ?_⟩
        · intro habs
          rcases habs with habs | habs <;> cases habs
        · intro name hname
          have hcol := mem_mostCommon hname
          rw [collectedAuthors] at hcol
          rcases List.mem_flatten.mp hcol with ⟨au, hau2, hnamein⟩
          rcases List.mem_map.mp hau2 with ⟨r, hrmem, rfl⟩
          have := mem_selectedMatched m0 main0 dfPapers topic_id.toNat r hrmem
          exact ⟨m0, main0, rfl, rfl, r, this.1, this.2, hnamein⟩
        · intro m main hm hmain
          cases hm
          cases hmain
          exact mostCommon_counts_sorted _ _
        · intro m main hm hmain
          cases hm
          cases hmain
          refine ⟨fun _ => mostCommon_length _ _, ?_⟩
          intro a ha b hb hbn
          exact mostCommon_is_top top_n _ a ha b hb hbn

/-- Witness for C8: both auxiliary tables missing yields the empty list. -/
theorem claim8_witness : getTopicRepresentativeAuthors none none none 0 5 = [] :=
  (claim8_repr_authors none none none 0 5).1 (Or.inl rfl)

/-! ## Claim C9 -/

theorem apiListTopics_map_id (tt : List TermRow) (labels : Labels) :
    (apiListTopics tt labels).map (fun t => t.id)
      = ((topicIds tt).take 15).map (fun x => x + 1) := by
  rw [apiListTopics, List.map_map]
  have hcomp : ((fun t : TopicOut => t.id) ∘ (fun t : TopicOut => { t with id := t.id + 1 }))
      = (fun x : ℤ => x + 1) ∘ (fun t : TopicOut => t.id) := rfl
  rw [hcomp, ← List.map_map, getTopics_map_id]

/-- C9: the listing route externalizes ids as internal id + 1 while the detail
route passes the path id through unchanged: whenever the listing displays
exactly the ids 1..15, requesting detail with 0-based id `n < 15` returns the
topic the listing displays as `n + 1` (echoing the 0-based id back), and
requesting the largest displayed id 15 is NotFound. -/
theorem claim9_api_id_shift (tt : List TermRow) (labels : Labels)
    (h : (apiListTopics tt labels).map (fun t => t.id)
        = (List.range 15).map (fun n : ℕ => ((n : ℤ) + 1))) :
    (∀ n : ℕ, n < 15 → ∃ t ∈ getTopics tt labels,
        apiTopicDetail tt labels (n : ℤ) = some t ∧ t.id = (n : ℤ)
        ∧ ({ t with id := t.id + 1 }) ∈ apiListTopics tt labels)
    ∧ apiTopicDetail tt labels 15 = none := by
  have hfinj : Function.Injective (fun x : ℤ => x + 1) := by
    intro a b hab
    simpa using hab
  have h' : List.map (fun x : ℤ => x + 1) ((getTopics tt labels).map (fun t => t.id))
      = List.map (fun x : ℤ => x + 1) ((List.range 15).map (fun n : ℕ => (n : ℤ))) := by
    rw [List.map_map, List.map_map]
    have e1 : ((fun x : ℤ => x + 1) ∘ fun n : ℕ => (n : ℤ))
        = fun n : ℕ => ((n : ℤ) + 1) := rfl
    have e2 : ((fun x : ℤ => x + 1) ∘ fun t : TopicOut => t.id)
        = fun t : TopicOut => t.id + 1 := rfl
    rw [e1, e2, ← h, apiListTopics, List.map_map]
    rfl
  have hids : (getTopics tt labels).map (fun t => t.id)
      = (List.range 15).map (fun n : ℕ => (n : ℤ)) :=
    List.map_injective_iff.mpr hfinj h'
  constructor
  · intro n hn
    have hmem : (n : ℤ) ∈ (getTopics tt labels).map (fun t => t.id) := by
      rw [hids]
      exact List.mem_map.mpr ⟨n, List.mem_range.mpr hn, rfl⟩
    cases hfind : (getTopics tt labels).find? (fun t => t.id = (n : ℤ)) with
    | none =>
      rcases List.mem_map.mp hmem with ⟨t, ht, hid⟩
      have := List.find?_eq_none.mp hfind t ht
      simp [hid] at this
    | some t =>
      refine ⟨t, List.mem_of_find?_eq_some hfind, hfind, ?_, ?_⟩
      · have := List.find?_some hfind
        simpa using this
      · exact List.mem_map.mpr ⟨t, List.mem_of_find?_eq_some hfind, rfl⟩
  · rw [apiTopicDetail, getTopic, List.find?_eq_none]
    intro t ht
    have : t.id ∈ (getTopics tt labels).map (fun t => t.id) :=
      List.mem_map.mpr ⟨t, ht, rfl⟩
    rw [hids] at this
    rcases List.mem_map.mp this with ⟨k, hk, hkid⟩
    have hk15 := List.mem_range.mp hk
    simp only [decide_eq_true_eq]
    intro h15
    rw [h15] at hkid
    omega

/-- Witness for C9: a table with one row per topic id 0..14 lists displayed ids
1..15, and detail id 15 is NotFound. -/
theorem claim9_witness :
    ((apiListTopics exTT9 emptyLabels).map (fun t => t.id)
        = (List.range 15).map (fun n : ℕ => ((n : ℤ) + 1)))
    ∧ apiTopicDetail exTT9 emptyLabels 15 = none := by
  have hyp : (apiListTopics exTT9 emptyLabels).map (fun t => t.id)
      = (List.range 15).map (fun n : ℕ => ((n : ℤ) + 1)) := by
    rw [apiListTopics_map_id]
    decide
  exact ⟨hyp, (claim9_api_id_shift exTT9 emptyLabels hyp).2⟩

end TTA
